import Mathlib

/-!
Shallow embedding of the MediaScanner scan-orchestration and deduplication
pipeline (TypeScript backend), together with proofs of its specification
claims.  JavaScript strings are modelled as `List Char`; machine time and
scores are modelled as `ℚ`; fallible operations return `Option`/`Except`.
External host primitives (URL parsing, date parsing, the SHA-256 digest
`hashUrl`) are taken as function parameters, since their implementations
live outside the repository.
-/

set_option maxHeartbeats 1000000

namespace MediaScanner

/-- JS strings are modelled as lists of characters. -/
abbrev Str := List Char

/-- Coerce a Lean string literal into the model type. -/
def str (s : String) : Str := s.data

/-- JS whitespace test (the ASCII part of the regex class `\s`). -/
def isSpaceChar (c : Char) : Bool :=
  c == ' ' || c == '\t' || c == '\n' || c == '\r' || c == '\x0b' || c == '\x0c'

/-- `String.prototype.trim`: drop leading and trailing whitespace. -/
def trimStr (s : Str) : Str :=
  ((s.dropWhile isSpaceChar).reverse.dropWhile isSpaceChar).reverse

/-- `String.prototype.toLowerCase` (character-wise). -/
def lowerStr (s : Str) : Str := s.map Char.toLower

/-- Does `s` start with `pat`? -/
def startsWithStr : Str → Str → Bool
  | _, [] => true
  | [], _ :: _ => false
  | c :: cs, p :: ps => c == p && startsWithStr cs ps

/-- `String.prototype.includes`: substring occurrence test. -/
def includesStr : Str → Str → Bool
  | s, pat =>
    startsWithStr s pat ||
      match s with
      | [] => false
      | _ :: t => includesStr t pat

/-- Fueled global replace of a fixed non-empty pattern (`.replace(/pat/g, rep)`).
The fuel is an upper bound on the scan length; `replaceAll` supplies enough. -/
def replaceAllF (pat rep : Str) : Nat → Str → Str
  | 0, s => s
  | _ + 1, [] => []
  | fuel + 1, c :: rest =>
    if pat ≠ [] ∧ startsWithStr (c :: rest) pat then
      rep ++ replaceAllF pat rep fuel ((c :: rest).drop pat.length)
    else
      c :: replaceAllF pat rep fuel rest

/-- Global leftmost replacement of `pat` by `rep`. -/
def replaceAll (pat rep s : Str) : Str := replaceAllF pat rep s.length s

/-- `.replace(/\s+/g, ' ')`: collapse every whitespace run to one space. -/
def collapseWs : Str → Str
  | [] => []
  | [c] => if isSpaceChar c then [' '] else [c]
  | c :: d :: rest =>
    if isSpaceChar c then
      if isSpaceChar d then collapseWs (d :: rest) else ' ' :: collapseWs (d :: rest)
    else c :: collapseWs (d :: rest)

/-- Split at the first `>` character: returns the segment before it and the
remainder after it. -/
def findGt : Str → Option (Str × Str)
  | [] => none
  | c :: t =>
    if c == '>' then some ([], t)
    else (findGt t).map (fun p => (c :: p.1, p.2))

/-- Fueled model of `.replace(/<[^>]+>/g, ' ')`: a `<` followed by at least one
non-`>` character and a closing `>` is replaced by a single space. -/
def stripTagsF : Nat → Str → Str
  | 0, s => s
  | _ + 1, [] => []
  | fuel + 1, c :: rest =>
    if c == '<' then
      match findGt rest with
      | some (pre, post) =>
        if pre = [] then '<' :: stripTagsF fuel rest
        else ' ' :: stripTagsF fuel post
      | none => '<' :: stripTagsF fuel rest
    else c :: stripTagsF fuel rest

def stripTags (s : Str) : Str := stripTagsF s.length s

/-- JS word character (`\w`). -/
def isWordChar (c : Char) : Bool := c.isAlphanum || c == '_'

/-- Search for the first (case-insensitive) occurrence of `close` and drop
everything up to and including it. -/
def dropThroughClose (close : Str) : Str → Option Str
  | [] => none
  | c :: t =>
    if startsWithStr (lowerStr (c :: t)) close then some ((c :: t).drop close.length)
    else dropThroughClose close t

/-- Does the remainder after `<tag` satisfy the `\b` boundary of the source
regex (next character is a non-word character or end of input)? -/
def boundaryOk : Str → Bool
  | [] => true
  | c :: _ => !isWordChar c

/-- Fueled model of the script/style block removal regex
`/<tag\b[^<]*(?:(?!<\/tag>)<[^<]*)*<\/tag>/gi`: each case-insensitive
occurrence of `<tag` (at a word boundary) through the first following
`</tag>` is removed. -/
def stripTagBlocksF (tag : Str) : Nat → Str → Str
  | 0, s => s
  | _ + 1, [] => []
  | fuel + 1, c :: rest =>
    if startsWithStr (lowerStr (c :: rest)) ('<' :: tag) ∧
        boundaryOk ((c :: rest).drop (tag.length + 1)) then
      match dropThroughClose ('<' :: '/' :: (tag ++ ['>'])) ((c :: rest).drop (tag.length + 1)) with
      | some post => stripTagBlocksF tag fuel post
      | none => c :: stripTagBlocksF tag fuel rest
    else c :: stripTagBlocksF tag fuel rest

def stripTagBlocks (tag s : Str) : Str := stripTagBlocksF tag s.length s

/-- The apostrophe character (HTML entity `&#39;`). -/
def apos : Char := Char.ofNat 39

/-- `RSSNormalizerService.stripHtml`: remove script/style blocks, remove all
remaining tags, decode the six listed HTML entities, collapse whitespace and
trim. -/
def stripHtml (s : Str) : Str :=
  trimStr (collapseWs
    (replaceAll (str "&#39;") [apos]
      (replaceAll (str "&quot;") ['"']
        (replaceAll (str "&gt;") ['>']
          (replaceAll (str "&lt;") ['<']
            (replaceAll (str "&amp;") ['&']
              (replaceAll (str "&nbsp;") [' ']
                (stripTags
                  (stripTagBlocks (str "style")
                    (stripTagBlocks (str "script") s))))))))))

/-- `RSSNormalizerService.cleanText`. -/
def cleanText (s : Str) : Str := trimStr (collapseWs (stripHtml s))

/-! ## RSS items and normalization (`rss-normalizer.service.ts`) -/

/-- A raw feed item as produced by the RSS parser; every field may be absent. -/
structure RSSItem where
  title : Option Str
  link : Option Str
  pubDate : Option Str
  isoDate : Option Str
  content : Option Str
  contentSnippet : Option Str
  summary : Option Str
  description : Option Str
  guid : Option Str
  author : Option Str
  creator : Option Str
deriving DecidableEq

/-- JS truthiness of an optional string (`undefined` and `''` are falsy). -/
def jsTruthy : Option Str → Bool
  | none => false
  | some s => !s.isEmpty

/-- JS `a || b` on optional strings. -/
def jsOrStr (a b : Option Str) : Option Str := if jsTruthy a then a else b

/-- `cleanUrl`: trim, require an `http://` or `https://` scheme prefix, then
delegate to the host `URL` constructor (`parseUrlFn` returns the normalized
`href`, or `none` when the constructor throws). -/
def cleanUrl (parseUrlFn : Str → Option Str) (url : Str) : Option Str :=
  let cleaned := trimStr url
  if startsWithStr cleaned (str "http://") || startsWithStr cleaned (str "https://") then
    parseUrlFn cleaned
  else none

/-- `parseDate`: absent or empty input gives no date; an unparseable string
(`parseDateFn` returning `none` models a `NaN` time value) gives no date;
a future date is capped at `now`. Times are epoch milliseconds as `ℚ`. -/
def parseDate (parseDateFn : Str → Option ℚ) (now : ℚ) (ds : Option Str) : Option ℚ :=
  match ds with
  | none => none
  | some s =>
    if s.isEmpty then none
    else
      match parseDateFn s with
      | none => none
      | some d => if now < d then some now else some d

/-- `isOlderThan(date, days)`: the source computes the cutoff with
`setDate(getDate() - days)`; that calendar arithmetic is modelled as
`days` times 24 hours in milliseconds. -/
def isOlderThan (now d days : ℚ) : Bool := decide (d < now - days * 86400000)

/-- One probe step of `extractLede`: a present, non-blank candidate whose
markup-stripped text reaches 30 characters yields its first 500 characters. -/
def probeLede : Option Str → Option Str
  | none => none
  | some s =>
    if s.isEmpty then none
    else if (trimStr s).length = 0 then none
    else
      let cleaned := stripHtml s
      if 30 ≤ cleaned.length then some (cleaned.take 500) else none

/-- `extractLede`: probe `contentSnippet`, `summary`, `description`, `content`
in that order. -/
def extractLede (item : RSSItem) : Option Str :=
  match probeLede item.contentSnippet with
  | some l => some l
  | none =>
    match probeLede item.summary with
    | some l => some l
    | none =>
      match probeLede item.description with
      | some l => some l
      | none => probeLede item.content

/-- A normalized candidate article (`NormalizedArticle` in the source). -/
structure NormalizedArticle where
  sourceId : Str
  externalId : Str
  url : Str
  urlHash : Str
  title : Str
  lede : Str
  fullText : Option Str
  author : Option Str
  publishedAt : Option ℚ
deriving DecidableEq

/-- Outcome of `normalizeItem`: either a rejection reason or an article. -/
inductive NormOutcome where
  | rejected (reason : Str)
  | accepted (a : NormalizedArticle)
deriving DecidableEq

/-- The freshness test applied to the parsed publication date. -/
def staleCheck (now : ℚ) (publishedAt : Option ℚ) : Bool :=
  match publishedAt with
  | some d => isOlderThan now d 7
  | none => false

/-- `RSSNormalizerService.normalizeItem`, parameterized by the host URL
parser, date parser and content-hash digest. -/
def normalizeItem (parseUrlFn : Str → Option Str) (parseDateFn : Str → Option ℚ)
    (hashUrlFn : Str → Str) (now : ℚ) (item : RSSItem) (sourceId : Str) : NormOutcome :=
  if jsTruthy item.link = false then .rejected (str "missing_link")
  else if jsTruthy item.title = false ∨ (trimStr (item.title.getD [])).length < 5 then
    .rejected (str "missing_or_short_title")
  else
    match cleanUrl parseUrlFn (item.link.getD []) with
    | none => .rejected (str "invalid_url")
    | some url =>
      match extractLede item with
      | none => .rejected (str "insufficient_content")
      | some lede =>
        if lede.length < 30 then .rejected (str "insufficient_content")
        else
          let publishedAt := parseDate parseDateFn now (jsOrStr item.pubDate item.isoDate)
          if staleCheck now publishedAt then .rejected (str "too_old")
          else
            .accepted
              { sourceId := sourceId
                externalId := if jsTruthy item.guid then item.guid.getD [] else url
                url := url
                urlHash := hashUrlFn url
                title := cleanText (item.title.getD [])
                lede := cleanText lede
                fullText :=
                  if jsTruthy item.content then some (cleanText (item.content.getD [])) else none
                author :=
                  if jsTruthy item.author then item.author
                  else if jsTruthy item.creator then item.creator
                  else none
                publishedAt := publishedAt }

/-- Aggregate result of `normalizeItems`. -/
structure NormalizationResult where
  articles : List NormalizedArticle
  skipped : Nat
  reasons : Str → Nat

/-- `RSSNormalizerService.normalizeItems`: fold `normalizeItem` over the feed,
collecting survivors and a per-reason rejection count. -/
def normStep (parseUrlFn : Str → Option Str) (parseDateFn : Str → Option ℚ)
    (hashUrlFn : Str → Str) (now : ℚ) (sourceId : Str) (acc : NormalizationResult)
    (item : RSSItem) : NormalizationResult :=
  match normalizeItem parseUrlFn parseDateFn hashUrlFn now item sourceId with
  | .accepted a => { acc with articles := acc.articles ++ [a] }
  | .rejected r =>
    { acc with
      skipped := acc.skipped + 1
      reasons := fun k => if k = r then acc.reasons k + 1 else acc.reasons k }

def normalizeItems (parseUrlFn : Str → Option Str) (parseDateFn : Str → Option ℚ)
    (hashUrlFn : Str → Str) (now : ℚ) (items : List RSSItem) (sourceId : Str) :
    NormalizationResult :=
  items.foldl (normStep parseUrlFn parseDateFn hashUrlFn now sourceId) ⟨[], 0, fun _ => 0⟩

/-- Discriminator: did `normalizeItem` accept the item? -/
def isAcceptedOutcome : NormOutcome → Bool
  | .accepted _ => true
  | .rejected _ => false

/-! ## Topic matching (`rss-normalizer.service.ts`) -/

/-- A topic as used for keyword matching. -/
structure TopicKw where
  id : Str
  keywords : List Str
deriving DecidableEq

/-- `quickRelevanceCheck`: case-insensitive substring match of any keyword
against the space-joined concatenation of title and lede. -/
def quickRelevanceCheck (article : NormalizedArticle) (keywords : List Str) : Bool :=
  let text := lowerStr (article.title ++ [' '] ++ article.lede)
  keywords.any (fun k => includesStr (lowerStr text) (lowerStr k))

/-- `checkAgainstTopics`: identifiers of the topics with at least one
matching keyword, in input order. -/
def checkAgainstTopics (article : NormalizedArticle) (topics : List TopicKw) : List Str :=
  (topics.filter (fun t => quickRelevanceCheck article t.keywords)).map (fun t => t.id)

/-! ## Deduplicator (`deduplicator.service.ts`) -/

/-- A cache entry value: `'exists'` or `'new'` (a miss is `Option.none`). -/
inductive CacheVal where
  | exist
  | fresh
deriving DecidableEq

/-- The key-value cache, keyed by content hash. -/
abbrev Cache := Str → Option CacheVal

/-- `redis.setex`: point update of the cache. -/
def setCache (c : Cache) (k : Str) (v : CacheVal) : Cache :=
  fun h => if h = k then some v else c h

/-- Accumulator of the first (cache) pass of `filterDuplicates`. -/
structure Phase1Acc where
  newArticles : List NormalizedArticle
  duplicates : Nat
  cacheHits : Nat
  needsDbCheck : List NormalizedArticle

/-- Result shape of `filterDuplicates`. -/
structure DedupResult where
  newArticles : List NormalizedArticle
  duplicates : Nat
  cacheHits : Nat
  dbChecks : Nat
deriving DecidableEq

/-- One step of the first (cache) pass of `filterDuplicates`: a cache-`exists`
hash is a duplicate and a cache hit; a cache-`new` hash is confirmed new and a
cache hit; a miss is deferred to the store probe. -/
def dedupStep1 (cache : Cache) (acc : Phase1Acc) (a : NormalizedArticle) : Phase1Acc :=
  match cache a.urlHash with
  | some CacheVal.exist =>
    { acc with duplicates := acc.duplicates + 1, cacheHits := acc.cacheHits + 1 }
  | some CacheVal.fresh =>
    { acc with newArticles := acc.newArticles ++ [a], cacheHits := acc.cacheHits + 1 }
  | none => { acc with needsDbCheck := acc.needsDbCheck ++ [a] }

/-- One step of the second (store) pass of `filterDuplicates`: a hash found in
the store is a duplicate and is cached as `exists`; one not found is new and
is cached as `new`. -/
def dedupStep2 (dbHas : Str → Bool) (acc : List NormalizedArticle × Nat × Cache)
    (a : NormalizedArticle) : List NormalizedArticle × Nat × Cache :=
  if dbHas a.urlHash then
    (acc.1, acc.2.1 + 1, setCache acc.2.2 a.urlHash CacheVal.exist)
  else
    (acc.1 ++ [a], acc.2.1, setCache acc.2.2 a.urlHash CacheVal.fresh)

/-- `DeduplicatorService.filterDuplicates`: batch cache probe, then a durable
store probe (`dbHas`) for the cache misses, writing back cache marks for the
probed hashes.  Returns the result and the updated cache. -/
def filterDuplicates (cache : Cache) (dbHas : Str → Bool)
    (articles : List NormalizedArticle) : DedupResult × Cache :=
  let p1 : Phase1Acc := articles.foldl (dedupStep1 cache) ⟨[], 0, 0, []⟩
  let p2 : List NormalizedArticle × Nat × Cache :=
    p1.needsDbCheck.foldl (dedupStep2 dbHas) ([], p1.duplicates, cache)
  ({ newArticles := p1.newArticles ++ p2.1
     duplicates := p2.2.1
     cacheHits := p1.cacheHits
     dbChecks := p1.needsDbCheck.length }, p2.2.2)

/-- `DeduplicatorService.markBatchAsStored`: pipeline of `setex(hash, 'exists')`
for every given URL. -/
def markBatchAsStored (hashUrlFn : Str → Str) (cache : Cache) (urls : List Str) : Cache :=
  urls.foldl (fun c url => setCache c (hashUrlFn url) CacheVal.exist) cache

/-! ## Article repository (`article.repository.ts`) -/

/-- Lifecycle status of a stored article. -/
inductive ArticleStatus where
  | pending
  | analyzing
  | relevant
  | irrelevant
  | error
deriving DecidableEq

/-- A row of the `articles` table. -/
structure ArticleRow where
  id : Nat
  sourceId : Str
  externalId : Option Str
  url : Str
  urlHash : Str
  title : Str
  lede : Option Str
  fullText : Option Str
  author : Option Str
  publishedAt : Option ℚ
  status : ArticleStatus
deriving DecidableEq

/-- The `articles` table; `url_hash` carries a unique constraint. -/
structure ArticlesDb where
  rows : List ArticleRow
deriving DecidableEq

/-- Input shape of `ArticleRepository.create`. -/
structure CreateArticleInput where
  sourceId : Str
  externalId : Option Str
  url : Str
  title : Str
  lede : Option Str
  fullText : Option Str
  author : Option Str
  publishedAt : Option ℚ
deriving DecidableEq

/-- `ArticleRepository.create`: `INSERT ... ON CONFLICT (url_hash) DO NOTHING
RETURNING *`.  On a hash conflict the statement inserts nothing and returns no
row (the TS method then yields `undefined`); otherwise the fresh `pending` row
is appended and returned. -/
def articleCreate (hashUrlFn : Str → Str) (db : ArticlesDb) (input : CreateArticleInput) :
    ArticlesDb × Option ArticleRow :=
  let urlHash := hashUrlFn input.url
  if ∃ r ∈ db.rows, r.urlHash = urlHash then (db, none)
  else
    let row : ArticleRow :=
      { id := db.rows.length
        sourceId := input.sourceId
        externalId := input.externalId
        url := input.url
        urlHash := urlHash
        title := input.title
        lede := input.lede
        fullText := input.fullText
        author := input.author
        publishedAt := input.publishedAt
        status := ArticleStatus.pending }
    (⟨db.rows ++ [row]⟩, some row)

/-- Number of stored rows holding a given content hash. -/
def hashCount (db : ArticlesDb) (h : Str) : Nat :=
  (db.rows.filter (fun r => decide (r.urlHash = h))).length

/-! ## Fetch worker insert loop (`rss-scan.worker.ts`, step 4) -/

/-- Outcome of one `articleRepo.create` call as seen by the worker: a created
row, no row (conflict), or a thrown error carrying a message. -/
inductive InsertOutcome where
  | created (id : Nat)
  | noRow
  | thrown (msg : Str)
deriving DecidableEq

/-- An enqueued AI-analysis job payload. -/
structure AnalysisJob where
  articleId : Nat
  title : Str
  lede : Str
  sourceName : Str
  url : Str
  topicIds : List Str
deriving DecidableEq

/-- Accumulated effect of the per-article insert loop. -/
structure LoopResult where
  insertedIds : List Nat
  jobs : List AnalysisJob
  queued : Nat
  errors : List Str
deriving DecidableEq

/-- The per-article insert loop of `processRssScan`, generic over the insert
effect `ins` acting on a state `σ` (the durable store, possibly failing).  A
created row is recorded and, when the article matches at least one topic, an
analysis job is enqueued; a conflict (`noRow`) does nothing; a thrown error is
appended to the scan error list unless its message contains `duplicate key`. -/
def insertLoop {σ : Type} (ins : σ → NormalizedArticle → σ × InsertOutcome)
    (topics : List TopicKw) (sourceName : Str) :
    List NormalizedArticle → σ → LoopResult → σ × LoopResult
  | [], s, acc => (s, acc)
  | a :: rest, s, acc =>
    let step := ins s a
    match step.2 with
    | .created id =>
      let matched := checkAgainstTopics a topics
      if matched.length > 0 then
        insertLoop ins topics sourceName rest step.1
          { acc with
            insertedIds := acc.insertedIds ++ [id]
            jobs := acc.jobs ++ [⟨id, a.title, a.lede, sourceName, a.url, matched⟩]
            queued := acc.queued + 1 }
      else
        insertLoop ins topics sourceName rest step.1
          { acc with insertedIds := acc.insertedIds ++ [id] }
    | .noRow => insertLoop ins topics sourceName rest step.1 acc
    | .thrown msg =>
      if includesStr msg (str "duplicate key") then
        insertLoop ins topics sourceName rest step.1 acc
      else
        insertLoop ins topics sourceName rest step.1
          { acc with
            errors := acc.errors ++ [str "Insert error for " ++ a.url ++ str ": " ++ msg] }

/-- Steps 4 and 5 of `processRssScan`: run the insert loop over the
deduplicated-new articles, then `markBatchAsStored` over the URLs of the
whole deduplicated-new batch. -/
def workerInsertAndMark {σ : Type} (hashUrlFn : Str → Str)
    (ins : σ → NormalizedArticle → σ × InsertOutcome) (topics : List TopicKw)
    (sourceName : Str) (cache : Cache) (newArticles : List NormalizedArticle)
    (s0 : σ) : σ × LoopResult × Cache :=
  let r := insertLoop ins topics sourceName newArticles s0 ⟨[], [], 0, []⟩
  (r.1, r.2, markBatchAsStored hashUrlFn cache (newArticles.map (fun a => a.url)))

/-- The insert effect implemented by `ArticleRepository.create` (never
throws; models the race-free sequential store). -/
def repoInsert (hashUrlFn : Str → Str) (db : ArticlesDb) (a : NormalizedArticle) :
    ArticlesDb × InsertOutcome :=
  let r := articleCreate hashUrlFn db
    { sourceId := a.sourceId
      externalId := some a.externalId
      url := a.url
      title := a.title
      lede := some a.lede
      fullText := a.fullText
      author := a.author
      publishedAt := a.publishedAt }
  (r.1, match r.2 with
        | some row => .created row.id
        | none => .noRow)

/-- The trace of the insert loop: each article paired with the outcome of
its `create` call, in execution order. -/
def loopTrace {σ : Type} (ins : σ → NormalizedArticle → σ × InsertOutcome) :
    List NormalizedArticle → σ → List (NormalizedArticle × InsertOutcome)
  | [], _ => []
  | a :: rest, s => (a, (ins s a).2) :: loopTrace ins rest (ins s a).1

/-- The state of the store after the insert loop. -/
def runInserts {σ : Type} (ins : σ → NormalizedArticle → σ × InsertOutcome) :
    List NormalizedArticle → σ → σ
  | [], s => s
  | a :: rest, s => runInserts ins rest (ins s a).1

/-- The row identifier recorded by one loop step, when a row was created. -/
def createdIdOf (p : NormalizedArticle × InsertOutcome) : Option Nat :=
  match p.2 with
  | .created id => some id
  | _ => none

/-- The analysis job enqueued by one loop step: only for a created row whose
article matches at least one topic. -/
def jobOf (topics : List TopicKw) (sourceName : Str)
    (p : NormalizedArticle × InsertOutcome) : Option AnalysisJob :=
  match p.2 with
  | .created id =>
    if (checkAgainstTopics p.1 topics).length > 0 then
      some ⟨id, p.1.title, p.1.lede, sourceName, p.1.url, checkAgainstTopics p.1 topics⟩
    else none
  | _ => none

/-- The scan error recorded by one loop step: only a thrown message not
containing `duplicate key`, with the worker's prefix. -/
def errOf (p : NormalizedArticle × InsertOutcome) : Option Str :=
  match p.2 with
  | .thrown msg =>
    if includesStr msg (str "duplicate key") then none
    else some (str "Insert error for " ++ p.1.url ++ str ": " ++ msg)
  | _ => none

/-! ## Retry engine (`retry.ts`) -/

/-- Retry policy (delays in milliseconds). -/
structure RetryPolicy where
  maxAttempts : Nat
  initialDelayMs : ℚ
  maxDelayMs : ℚ
  backoffMultiplier : ℚ

/-- Trace of one `withRetry` run: final result (error `none` is the
`'No attempts made'` failure of a zero-attempt policy), number of operation
calls, and the backoff delays slept, in order. -/
instance {ε α : Type} [DecidableEq ε] [DecidableEq α] : DecidableEq (Except ε α) := fun a b =>
  match a, b with
  | .error x, .error y =>
    if h : x = y then .isTrue (by rw [h]) else .isFalse (by simp [h])
  | .ok x, .ok y =>
    if h : x = y then .isTrue (by rw [h]) else .isFalse (by simp [h])
  | .error _, .ok _ => .isFalse (by simp)
  | .ok _, .error _ => .isFalse (by simp)

structure RetryTrace (ε α : Type) where
  result : Except (Option ε) α
  calls : Nat
  delays : List ℚ
deriving DecidableEq

/-- Body of the `withRetry` loop: `attempt` is the 1-based attempt counter,
`remaining` the attempts left (`maxAttempts - attempt + 1`), `delay` the
current backoff delay.  A failure propagates at once when non-retryable or on
the last attempt; otherwise the delay is slept and grows by the multiplier,
capped at the maximum. -/
def retryGo (op : Nat → Except ε α) (retryable : ε → Bool) (mult maxDelay : ℚ) :
    Nat → Nat → ℚ → RetryTrace ε α
  | _, 0, _ => ⟨Except.error none, 0, []⟩
  | attempt, r + 1, delay =>
    match op attempt with
    | Except.ok a => ⟨Except.ok a, 1, []⟩
    | Except.error e =>
      if retryable e = true ∧ r ≠ 0 then
        let rest := retryGo op retryable mult maxDelay (attempt + 1) r (min (delay * mult) maxDelay)
        ⟨rest.result, rest.calls + 1, delay :: rest.delays⟩
      else ⟨Except.error (some e), 1, []⟩

/-- `withRetry(operation, options)`: the operation is modelled as a function
from the attempt number to its outcome. -/
def withRetry (op : Nat → Except ε α) (retryable : ε → Bool) (p : RetryPolicy) :
    RetryTrace ε α :=
  retryGo op retryable p.backoffMultiplier p.maxDelayMs 1 p.maxAttempts p.initialDelayMs

/-- The backoff delay sequence of length `n` starting from `d`:
each next delay is `min (d * mult) maxDelay`. -/
def delaySeqFrom (mult maxDelay : ℚ) : ℚ → Nat → List ℚ
  | _, 0 => []
  | d, n + 1 => d :: delaySeqFrom mult maxDelay (min (d * mult) maxDelay) n

/-! ## Circuit breaker (`retry.ts`) -/

/-- Breaker status (`'closed' | 'open' | 'half-open'`). -/
inductive CBStatus where
  | closed
  | opened
  | halfOpen
deriving DecidableEq

/-- Breaker construction parameters. -/
structure CBConfig where
  threshold : Nat
  resetTimeoutMs : ℚ

/-- Mutable breaker state. -/
structure CBState where
  failures : Nat
  lastFailure : Option ℚ
  status : CBStatus
deriving DecidableEq

/-- The freshly constructed breaker. -/
def cbInit : CBState := ⟨0, none, CBStatus.closed⟩

/-- `CircuitBreaker.recordFailure`. -/
def recordFailure (cfg : CBConfig) (cb : CBState) (now : ℚ) : CBState :=
  let f := cb.failures + 1
  { failures := f
    lastFailure := some now
    status := if cfg.threshold ≤ f then CBStatus.opened else cb.status }

/-- `CircuitBreaker.execute`: `opResult` is the outcome the wrapped operation
would produce if invoked.  Returns the next state, the call result (error
`none` is the fail-fast `'Circuit breaker is open'` error), and whether the
operation was actually invoked. -/
def cbExecute (cfg : CBConfig) (cb : CBState) (now : ℚ) (opResult : Except ε α) :
    CBState × Except (Option ε) α × Bool :=
  let cb1 : CBState :=
    if cb.status = CBStatus.opened ∧ cfg.resetTimeoutMs < now - (cb.lastFailure.getD 0) then
      { cb with status := CBStatus.halfOpen }
    else cb
  if cb1.status = CBStatus.opened then (cb1, Except.error none, false)
  else
    match opResult with
    | Except.ok a =>
      (if cb1.status = CBStatus.halfOpen then cbInit else cb1, Except.ok a, true)
    | Except.error e => (recordFailure cfg cb1 now, Except.error (some e), true)

/-! ## Rate limiter (`rate-limiter.ts`) -/

/-- Token-bucket state (times in milliseconds as `ℚ`; the token count is an
integer, as in the source). -/
structure RLState where
  tokens : ℤ
  maxTokens : Nat
  interval : ℚ
  lastRefill : ℚ
deriving DecidableEq

/-- The constructor: a full bucket. -/
def mkRateLimiter (tokensPerInterval : Nat) (interval : ℚ) (now : ℚ) : RLState :=
  ⟨tokensPerInterval, tokensPerInterval, interval, now⟩

/-- `RateLimiter.refillTokens`. -/
def refillTokens (s : RLState) (now : ℚ) : RLState :=
  let elapsed := now - s.lastRefill
  let tokensToAdd : ℤ := ⌊elapsed / s.interval * (s.maxTokens : ℚ)⌋
  if 0 < tokensToAdd then
    { s with tokens := min (s.maxTokens : ℤ) (s.tokens + tokensToAdd), lastRefill := now }
  else s

/-- `RateLimiter.waitForToken` in a sequential model: the call happens at time
`now`; sleeping advances the clock.  Returns the new state and the time at
which the call resolves. -/
def waitForToken (s : RLState) (now : ℚ) : RLState × ℚ :=
  let s1 := refillTokens s now
  if 0 < s1.tokens then ({ s1 with tokens := s1.tokens - 1 }, now)
  else
    let waitTime := s1.interval / (s1.maxTokens : ℚ)
    let t2 := now + waitTime
    let s2 := refillTokens s1 t2
    ({ s2 with tokens := s2.tokens - 1 }, t2)

/-- `n` back-to-back `waitForToken` calls, each issued the moment the
previous one resolves.  Returns the final state and the resolve time of the
last call. -/
def runAcquires : Nat → RLState → ℚ → RLState × ℚ
  | 0, s, t => (s, t)
  | n + 1, s, t =>
    let r := waitForToken s t
    runAcquires n r.1 r.2

/-! ## Cleanup scan (`scan-orchestrator.worker.ts`) -/

/-- One day in milliseconds. -/
def dayMs : ℚ := 86400000

/-- The fields of an article row relevant to cleanup. -/
structure CleanupArticle where
  status : ArticleStatus
  createdAt : ℚ
deriving DecidableEq

/-- A scan-log row as seen by cleanup. -/
structure ScanLogRow where
  startedAt : ℚ
deriving DecidableEq

/-- A daily-summary row as seen by cleanup. -/
structure DailySummaryRow where
  summaryDate : ℚ
deriving DecidableEq

/-- The three durable stores touched by cleanup. -/
structure CleanupStores where
  articles : List CleanupArticle
  scanLogs : List ScanLogRow
  summaries : List DailySummaryRow
deriving DecidableEq

/-- Deletion predicate of the articles `DELETE`: status `irrelevant` or
`error`, created more than 90 days ago. -/
def cleanupDeletesArticle (now : ℚ) (a : CleanupArticle) : Bool :=
  (a.status = ArticleStatus.irrelevant ∨ a.status = ArticleStatus.error) ∧
    a.createdAt < now - 90 * dayMs

/-- Deletion predicate of the scan-log `DELETE`: started more than 30 days
ago. -/
def cleanupDeletesLog (now : ℚ) (l : ScanLogRow) : Bool :=
  l.startedAt < now - 30 * dayMs

/-- Deletion predicate of the daily-summary `DELETE`: dated more than 90 days
before the current date. -/
def cleanupDeletesSummary (currentDate : ℚ) (d : DailySummaryRow) : Bool :=
  d.summaryDate < currentDate - 90 * dayMs

/-- `runCleanup`: three `DELETE` statements; the reported count is the total
number of deleted rows. -/
def runCleanup (now currentDate : ℚ) (s : CleanupStores) : CleanupStores × Nat :=
  let keptArticles := s.articles.filter (fun a => !cleanupDeletesArticle now a)
  let keptLogs := s.scanLogs.filter (fun l => !cleanupDeletesLog now l)
  let keptSummaries := s.summaries.filter (fun d => !cleanupDeletesSummary currentDate d)
  (⟨keptArticles, keptLogs, keptSummaries⟩,
    (s.articles.length - keptArticles.length) + (s.scanLogs.length - keptLogs.length) +
      (s.summaries.length - keptSummaries.length))

/-- Result shape of the orchestrator worker. -/
structure OrchestratorResult where
  type : Str
  sourcesProcessed : Nat
  jobsQueued : Nat
  errors : List Str
deriving DecidableEq

/-- The `'cleanup'` branch of `processScanOrchestrator`: runs `runCleanup`,
reports the deleted count as `sourcesProcessed`, and enqueues nothing
(`jobsQueued` stays 0, no fetch jobs are produced). -/
def processCleanupScan (now currentDate : ℚ) (s : CleanupStores) :
    CleanupStores × OrchestratorResult :=
  let r := runCleanup now currentDate s
  (r.1, ⟨str "cleanup", r.2, 0, []⟩)

/-! ## Multi-topic relevance analysis (`relevance-analyzer.service.ts`) -/

/-- A topic as passed to the analyzer. -/
structure TopicInfo where
  id : Str
  name : Str
deriving DecidableEq

/-- One entry of the model response's `results` array; fields may be absent
or malformed (absent is `none`). -/
structure RawTopicResult where
  topicId : Str
  topicName : Str
  relevanceScore : Option ℚ
  reasoning : Option Str
  potentialAngle : Option Str
deriving DecidableEq

/-- A per-topic relevance result as stored. -/
structure TopicRelevanceResult where
  topicId : Str
  topicName : Str
  relevanceScore : ℚ
  reasoning : Str
  potentialAngle : Str
deriving DecidableEq

/-- `Math.max(0, Math.min(1, x))`. -/
def clamp01 (x : ℚ) : ℚ := max 0 (min 1 x)

/-- Normalization of one raw entry: `r.relevance_score || 0` clamped to
`[0,1]`, `r.reasoning || ''`, `r.potential_angle || ''`.  (`x || 0` maps an
absent score to 0 and fixes a present score, since `0 || 0 = 0`.) -/
def normalizeRawResult (r : RawTopicResult) : TopicRelevanceResult :=
  { topicId := r.topicId
    topicName := r.topicName
    relevanceScore := clamp01 (r.relevanceScore.getD 0)
    reasoning := r.reasoning.getD []
    potentialAngle := r.potentialAngle.getD [] }

/-- `new Map(list.map(r => [r.topicId, r])).get(id)`: the last entry wins. -/
def lastLookup (rs : List TopicRelevanceResult) (id : Str) : Option TopicRelevanceResult :=
  rs.reverse.find? (fun r => decide (r.topicId = id))

/-- The placeholder recorded for a topic missing from the response. -/
def missingResult (t : TopicInfo) : TopicRelevanceResult :=
  ⟨t.id, t.name, 0, str "Résultat manquant", []⟩

/-- The whole-call failure message `'Erreur lors de l'analyse'`. -/
def erreurAnalyse : Str := str "Erreur lors de l" ++ [apos] ++ str "analyse"

/-- `analyzeArticleForTopics`, with the external call's outcome as input:
no topics yield no results; a short lede short-circuits with 0.1-score
placeholders; a thrown call yields 0-score error placeholders; otherwise the
response entries are normalized and completed so that every requested topic
gets exactly one result. -/
def analyzeArticleForTopics (lede : Str) (topics : List TopicInfo)
    (response : Except Unit (List RawTopicResult)) : List TopicRelevanceResult :=
  if topics.length = 0 then []
  else if lede.isEmpty ∨ lede.length < 50 then
    topics.map (fun t => ⟨t.id, t.name, 1 / 10, str "Article sans chapeau suffisant pour analyse", []⟩)
  else
    match response with
    | Except.error _ => topics.map (fun t => ⟨t.id, t.name, 0, erreurAnalyse, []⟩)
    | Except.ok raw =>
      let normalized := raw.map normalizeRawResult
      topics.map (fun t =>
        match lastLookup normalized t.id with
        | some r => r
        | none => missingResult t)

/-! ## Lemmas: retry engine -/

theorem retryGo_succ_eq {ε α : Type} (op : Nat → Except ε α) (retryable : ε → Bool)
    (mult maxDelay : ℚ) (attempt r : Nat) (delay : ℚ) :
    retryGo op retryable mult maxDelay attempt (r + 1) delay =
      match op attempt with
      | Except.ok a => ⟨Except.ok a, 1, []⟩
      | Except.error e =>
        if retryable e = true ∧ r ≠ 0 then
          let rest := retryGo op retryable mult maxDelay (attempt + 1) r (min (delay * mult) maxDelay)
          ⟨rest.result, rest.calls + 1, delay :: rest.delays⟩
        else ⟨Except.error (some e), 1, []⟩ := by
  rfl

theorem retryGo_calls_le {ε α : Type} (op : Nat → Except ε α) (retryable : ε → Bool)
    (mult maxDelay : ℚ) :
    ∀ r attempt delay, (retryGo op retryable mult maxDelay attempt r delay).calls ≤ r := by
  intro r
  induction r with
  | zero => intro attempt delay; simp [retryGo]
  | succ n ih =>
    intro attempt delay
    rw [retryGo_succ_eq]
    cases h : op attempt with
    | ok a => simp
    | error e =>
      dsimp only
      by_cases hr : retryable e = true ∧ n ≠ 0
      · rw [if_pos hr]
        show (retryGo op retryable mult maxDelay (attempt + 1) n (min (delay * mult) maxDelay)).calls + 1 ≤ n + 1
        have := ih (attempt + 1) (min (delay * mult) maxDelay)
        omega
      · rw [if_neg hr]
        show 1 ≤ n + 1
        omega

theorem retryGo_all_fail {ε α : Type} (op : Nat → Except ε α) (retryable : ε → Bool)
    (mult maxDelay : ℚ) (es : Nat → ε) :
    ∀ r attempt delay,
      (∀ k, attempt ≤ k → k ≤ attempt + r → op k = Except.error (es k) ∧ retryable (es k) = true) →
      retryGo op retryable mult maxDelay attempt (r + 1) delay =
        ⟨Except.error (some (es (attempt + r))), r + 1, delaySeqFrom mult maxDelay delay r⟩ := by
  intro r
  induction r with
  | zero =>
    intro attempt delay h
    have h0 := h attempt (le_refl _) (by omega)
    rw [retryGo_succ_eq, h0.1]
    simp [delaySeqFrom]
  | succ n ih =>
    intro attempt delay h
    have h0 := h attempt (le_refl _) (by omega)
    rw [retryGo_succ_eq, h0.1]
    have hrec := ih (attempt + 1) (min (delay * mult) maxDelay)
      (fun k hk1 hk2 => h k (by omega) (by omega))
    simp only [h0.2, ne_eq, Nat.succ_ne_zero, not_false_eq_true, and_self, if_true, hrec,
      delaySeqFrom]
    rw [show attempt + 1 + n = attempt + (n + 1) by omega]

theorem retryGo_eventually_ok {ε α : Type} (op : Nat → Except ε α) (retryable : ε → Bool)
    (mult maxDelay : ℚ) (a : α) :
    ∀ r attempt delay,
      (∀ k, attempt ≤ k → k < attempt + r → ∃ e, op k = Except.error e ∧ retryable e = true) →
      op (attempt + r) = Except.ok a →
      (retryGo op retryable mult maxDelay attempt (r + 1) delay).result = Except.ok a ∧
        (retryGo op retryable mult maxDelay attempt (r + 1) delay).calls = r + 1 := by
  intro r
  induction r with
  | zero =>
    intro attempt delay _ hok
    simp only [Nat.add_zero] at hok
    rw [retryGo_succ_eq, hok]
    simp
  | succ n ih =>
    intro attempt delay h hok
    obtain ⟨e, he, hre⟩ := h attempt (le_refl _) (by omega)
    rw [retryGo_succ_eq, he]
    have hrec := ih (attempt + 1) (min (delay * mult) maxDelay)
      (fun k hk1 hk2 => h k (by omega) (by omega))
      (by rw [show attempt + 1 + n = attempt + (n + 1) by omega]; exact hok)
    simp only [hre, ne_eq, Nat.succ_ne_zero, not_false_eq_true, and_self, if_true]
    exact ⟨hrec.1, by rw [hrec.2]⟩

/-- C4: `withRetry(operation, policy)`: a non-retryable failure on the first
call propagates after exactly one call with no backoff sleep; at most
`maxAttempts` calls are ever made; when every attempt fails retryably the last
failure propagates after exactly `maxAttempts` calls, with the slept delays
following the recurrence `d₀ = initialDelayMs`, `dᵢ₊₁ = min (dᵢ *
backoffMultiplier) maxDelayMs`; and when the first `maxAttempts - 1` calls
fail retryably and the `maxAttempts`-th succeeds, the success is returned and
exactly `maxAttempts` calls were made. -/
theorem withRetry_spec {ε α : Type} (op : Nat → Except ε α) (retryable : ε → Bool)
    (p : RetryPolicy) (hmax : 1 ≤ p.maxAttempts) :
    (∀ e, op 1 = Except.error e → retryable e = false →
      withRetry op retryable p = ⟨Except.error (some e), 1, []⟩) ∧
    (withRetry op retryable p).calls ≤ p.maxAttempts ∧
    (∀ es : Nat → ε,
      (∀ k, 1 ≤ k → k ≤ p.maxAttempts → op k = Except.error (es k) ∧ retryable (es k) = true) →
      withRetry op retryable p =
        ⟨Except.error (some (es p.maxAttempts)), p.maxAttempts,
          delaySeqFrom p.backoffMultiplier p.maxDelayMs p.initialDelayMs (p.maxAttempts - 1)⟩) ∧
    (∀ a : α,
      (∀ k, 1 ≤ k → k < p.maxAttempts → ∃ e, op k = Except.error e ∧ retryable e = true) →
      op p.maxAttempts = Except.ok a →
      (withRetry op retryable p).result = Except.ok a ∧
        (withRetry op retryable p).calls = p.maxAttempts) := by
  obtain ⟨r, hr⟩ : ∃ r, p.maxAttempts = r + 1 := ⟨p.maxAttempts - 1, by omega⟩
  refine ⟨?_, ?_, ?_, ?_⟩
  · intro e he hne
    unfold withRetry
    rw [hr]
    cases r with
    | zero => simp [retryGo, he, hne]
    | succ n => simp [retryGo, he, hne]
  · exact retryGo_calls_le op retryable p.backoffMultiplier p.maxDelayMs p.maxAttempts 1
      p.initialDelayMs
  · intro es h
    unfold withRetry
    rw [hr]
    have hgo := retryGo_all_fail op retryable p.backoffMultiplier p.maxDelayMs es r 1
      p.initialDelayMs (fun k hk1 hk2 => h k hk1 (by omega))
    rw [hgo, show (1 : ℕ) + r = r + 1 by omega, show r + 1 - 1 = r by omega]
  · intro a h hok
    unfold withRetry
    rw [hr]
    exact retryGo_eventually_ok op retryable p.backoffMultiplier p.maxDelayMs a r 1
      p.initialDelayMs (fun k hk1 hk2 => h k hk1 (by omega))
      (by rw [show (1 : Nat) + r = p.maxAttempts by omega]; exact hok)

/-- Concrete exercise of `withRetry_spec`: an operation failing retryably on
attempts 1 and 2 then succeeding, under a 3-attempt policy. -/
theorem withRetry_spec_witness :
    (withRetry (fun k => if k < 3 then Except.error 7 else Except.ok 42)
        (fun _ => true) ⟨3, 1000, 30000, 2⟩).result = Except.ok 42 ∧
      (withRetry (fun k => if k < 3 then Except.error 7 else Except.ok 42)
        (fun _ => true) ⟨3, 1000, 30000, 2⟩).calls = 3 :=
  (withRetry_spec (fun k => if k < 3 then Except.error (7 : Nat) else Except.ok (42 : Nat))
      (fun _ => true) ⟨3, 1000, 30000, 2⟩ (by norm_num)).2.2.2 42
    (fun k hk1 hk2 => ⟨7, by simp [show k < 3 from hk2], rfl⟩) (by norm_num)

/-! ## Lemmas: circuit breaker -/

/-- C5 counterexample: with threshold 2, the call sequence fail, success,
fail — starting from a fresh breaker — leaves the failure count at 1 after
the success (not reset to 0 as claimed) and opens the breaker on the third
call, although at no point did a run of 2 consecutive failures occur.  So a
success while closed does not reset the count, and non-consecutive failures
reaching the threshold open the breaker. -/
theorem circuitBreaker_claim_counterexample :
    ((cbExecute (ε := Unit) (α := Unit) ⟨2, 60000⟩
        (cbExecute (ε := Unit) (α := Unit) ⟨2, 60000⟩ cbInit 0 (Except.error ())).1
        1 (Except.ok ())).1.status = CBStatus.closed ∧
      (cbExecute (ε := Unit) (α := Unit) ⟨2, 60000⟩
        (cbExecute (ε := Unit) (α := Unit) ⟨2, 60000⟩ cbInit 0 (Except.error ())).1
        1 (Except.ok ())).1.failures = 1) ∧
    (cbExecute (ε := Unit) (α := Unit) ⟨2, 60000⟩
      (cbExecute (ε := Unit) (α := Unit) ⟨2, 60000⟩
        (cbExecute (ε := Unit) (α := Unit) ⟨2, 60000⟩ cbInit 0 (Except.error ())).1
        1 (Except.ok ())).1
      2 (Except.error ())).1.status = CBStatus.opened := by
  decide

/-- C5 (amended): the breaker counts failures cumulatively since the last
reset, not consecutively.  A success while closed leaves it closed with the
failure count unchanged; a failure while closed increments the count and
opens the breaker exactly when the count reaches the threshold; while open
and within the cool-down the call fails fast without invoking the operation
and without changing state; once the cool-down has elapsed, one trial call
either closes the breaker with the count reset to zero (success) or reopens
it (failure, given the open-state invariant `threshold ≤ failures`). -/
theorem circuitBreaker_amended {ε α : Type} (cfg : CBConfig) (cb : CBState) (now : ℚ)
    (a : α) (e : ε) :
    (cb.status = CBStatus.closed →
      cbExecute (ε := ε) cfg cb now (Except.ok a) = (cb, Except.ok a, true)) ∧
    (cb.status = CBStatus.closed →
      cbExecute (α := α) cfg cb now (Except.error e) =
        (⟨cb.failures + 1, some now,
          if cfg.threshold ≤ cb.failures + 1 then CBStatus.opened else CBStatus.closed⟩,
         Except.error (some e), true)) ∧
    (cb.status = CBStatus.opened →
      ¬ cfg.resetTimeoutMs < now - (cb.lastFailure.getD 0) →
      cbExecute (ε := ε) (α := α) cfg cb now (Except.error e) =
        (cb, Except.error none, false) ∧
      cbExecute (ε := ε) (α := α) cfg cb now (Except.ok a) =
        (cb, Except.error none, false)) ∧
    (cb.status = CBStatus.opened →
      cfg.resetTimeoutMs < now - (cb.lastFailure.getD 0) →
      cbExecute (ε := ε) cfg cb now (Except.ok a) = (cbInit, Except.ok a, true)) ∧
    (cb.status = CBStatus.opened →
      cfg.resetTimeoutMs < now - (cb.lastFailure.getD 0) →
      cfg.threshold ≤ cb.failures →
      cbExecute (α := α) cfg cb now (Except.error e) =
        (⟨cb.failures + 1, some now, CBStatus.opened⟩, Except.error (some e), true)) := by
  refine ⟨?_, ?_, ?_, ?_, ?_⟩
  · intro hc
    simp [cbExecute, hc]
  · intro hc
    simp [cbExecute, hc, recordFailure]
  · intro ho ht
    constructor <;> simp [cbExecute, ho, ht]
  · intro ho ht
    simp [cbExecute, ho, ht, cbInit]
  · intro ho ht hf
    have : cfg.threshold ≤ cb.failures + 1 := by omega
    simp [cbExecute, ho, ht, recordFailure, this]

/-- Concrete exercise of `circuitBreaker_amended`: an open breaker
(2 failures, threshold 2, last failure at 0) probed after the 60 s cool-down
admits one trial call; on success it closes with the count reset. -/
theorem circuitBreaker_amended_witness :
    cbExecute (ε := Unit) (α := Unit) ⟨2, 60000⟩ ⟨2, some 0, CBStatus.opened⟩ 70000
        (Except.ok ()) = (cbInit, Except.ok (), true) :=
  (circuitBreaker_amended ⟨2, 60000⟩ ⟨2, some 0, CBStatus.opened⟩ 70000 () ()).2.2.2.1
    rfl (by norm_num)

/-! ## Lemmas: rate limiter -/

theorem refillTokens_noop (s : RLState) : refillTokens s s.lastRefill = s := by
  simp [refillTokens]

theorem refillTokens_at (s : RLState) (now : ℚ) (h : now = s.lastRefill) :
    refillTokens s now = s := by
  rw [h]
  exact refillTokens_noop s

theorem runAcquires_add (m n : Nat) :
    ∀ (s : RLState) (t : ℚ), runAcquires (m + n) s t =
      runAcquires n (runAcquires m s t).1 (runAcquires m s t).2 := by
  induction m with
  | zero => intro s t; simp [runAcquires]
  | succ k ih =>
    intro s t
    rw [show k + 1 + n = (k + n) + 1 by omega]
    simp only [runAcquires]
    exact ih (waitForToken s t).1 (waitForToken s t).2

theorem waitForToken_empty (C : Nat) (I t0 : ℚ) (hC : 1 ≤ C) (hI : 0 < I) :
    waitForToken ⟨0, C, I, t0⟩ t0 = (⟨0, C, I, t0 + I / C⟩, t0 + I / C) := by
  have hCq : (C : ℚ) ≠ 0 := Nat.cast_ne_zero.mpr (by omega)
  have hIq : I ≠ 0 := ne_of_gt hI
  have hone : (I / C) / I * (C : ℚ) = 1 := by
    field_simp
    ring
  have hrefill : refillTokens ⟨0, C, I, t0⟩ (t0 + I / C) = ⟨1, C, I, t0 + I / C⟩ := by
    unfold refillTokens
    simp only [add_sub_cancel_left, hone]
    norm_num
    omega
  unfold waitForToken
  rw [refillTokens_at ⟨0, C, I, t0⟩ t0 rfl]
  dsimp only
  rw [if_neg (by norm_num)]
  rw [hrefill]
  norm_num

theorem runAcquires_empty (C : Nat) (I : ℚ) (hC : 1 ≤ C) (hI : 0 < I) :
    ∀ (m : Nat) (t0 : ℚ), runAcquires m ⟨0, C, I, t0⟩ t0 =
      (⟨0, C, I, t0 + m * (I / C)⟩, t0 + m * (I / C)) := by
  intro m
  induction m with
  | zero => intro t0; simp [runAcquires]
  | succ k ih =>
    intro t0
    simp only [runAcquires, waitForToken_empty C I t0 hC hI]
    rw [ih (t0 + I / C)]
    simp only [Prod.mk.injEq, RLState.mk.injEq, true_and, and_true]
    push_cast
    constructor <;> ring

theorem runAcquires_full (C : Nat) (I : ℚ) (hC : 1 ≤ C) (hI : 0 < I) :
    ∀ j, j ≤ C → runAcquires j (mkRateLimiter C I 0) 0 =
      (⟨(C : ℤ) - j, C, I, 0⟩, 0) := by
  intro j
  induction j with
  | zero => intro _; simp [runAcquires, mkRateLimiter]
  | succ k ih =>
    intro hk
    rw [show k + 1 = k + 1 from rfl, runAcquires_add k 1, ih (by omega)]
    have hpos : (0 : ℤ) < (C : ℤ) - k := by
      have : (k : ℤ) < C := by exact_mod_cast hk
      omega
    simp only [runAcquires, waitForToken]
    rw [refillTokens_at ⟨(C : ℤ) - k, C, I, 0⟩ 0 rfl]
    dsimp only
    rw [if_pos hpos]
    simp only [Prod.mk.injEq, RLState.mk.injEq, true_and, and_true]
    push_cast
    ring

/-- C9: the sequential token-bucket model.  Starting from a full bucket of
capacity `C` with refill interval `I`, the `N`-th of `N` back-to-back
`waitForToken` calls resolves exactly at time `(N - C) * (I / C)`, hence not
before `((N - C) / C) * I` after the first call (refill rate `C/I`, capped at
`C`, each over-capacity call suspending for one token period). -/
theorem rateLimiter_nth_acquire (C N : Nat) (I : ℚ) (hC : 1 ≤ C) (hI : 0 < I)
    (hN : C ≤ N) :
    (runAcquires N (mkRateLimiter C I 0) 0).2 = ((N - C : ℕ) : ℚ) * (I / C) ∧
      ((N - C : ℕ) : ℚ) / C * I ≤ (runAcquires N (mkRateLimiter C I 0) 0).2 := by
  obtain ⟨M, hM⟩ : ∃ M, N = C + M := ⟨N - C, by omega⟩
  subst hM
  rw [show C + M - C = M by omega]
  rw [runAcquires_add C M, runAcquires_full C I hC hI C (le_refl C)]
  have hz : ((C : ℤ) - (C : ℕ) : ℤ) = 0 := sub_self _
  rw [hz, runAcquires_empty C I hC hI M 0]
  constructor
  · rw [zero_add]
  · rw [zero_add]
    exact le_of_eq (by ring)

/-- Concrete exercise of `rateLimiter_nth_acquire`: capacity 2, interval
10 ms, 5 rapid calls — the 5th call resolves at 15 ms = ((5-2)/2)·10. -/
theorem rateLimiter_nth_acquire_witness :
    (runAcquires 5 (mkRateLimiter 2 10 0) 0).2 = ((5 - 2 : ℕ) : ℚ) * (10 / 2) ∧
      ((5 - 2 : ℕ) : ℚ) / 2 * 10 ≤ (runAcquires 5 (mkRateLimiter 2 10 0) 0).2 :=
  rateLimiter_nth_acquire 2 5 10 (by norm_num) (by norm_num) (by norm_num)

/-! ## Lemmas: cleanup -/

theorem length_filter_not_add {α : Type} (p : α → Bool) (l : List α) :
    (l.filter (fun x => !p x)).length + (l.filter p).length = l.length := by
  induction l with
  | nil => simp
  | cons a t ih =>
    by_cases h : p a = true <;> simp [List.filter, h] <;> omega

/-- C7: a cleanup scan enqueues no jobs and deletes exactly the articles of
status `irrelevant` or `error` created more than 90 days ago, the scan logs
started more than 30 days ago, and the daily summaries dated more than 90
days before the current date; it reports the total deleted count, and every
article of status `relevant` survives regardless of age (as does anything a
deletion predicate does not cover). -/
theorem cleanup_spec (now currentDate : ℚ) (s : CleanupStores) :
    (processCleanupScan now currentDate s).2.jobsQueued = 0 ∧
    (processCleanupScan now currentDate s).2.errors = [] ∧
    (processCleanupScan now currentDate s).1.articles =
      s.articles.filter (fun a => !cleanupDeletesArticle now a) ∧
    (processCleanupScan now currentDate s).1.scanLogs =
      s.scanLogs.filter (fun l => !cleanupDeletesLog now l) ∧
    (processCleanupScan now currentDate s).1.summaries =
      s.summaries.filter (fun d => !cleanupDeletesSummary currentDate d) ∧
    (∀ a ∈ s.articles, a.status = ArticleStatus.relevant →
      a ∈ (processCleanupScan now currentDate s).1.articles) ∧
    (∀ a ∈ s.articles, a ∉ (processCleanupScan now currentDate s).1.articles →
      (a.status = ArticleStatus.irrelevant ∨ a.status = ArticleStatus.error) ∧
        a.createdAt < now - 90 * dayMs) ∧
    (processCleanupScan now currentDate s).2.sourcesProcessed =
      (s.articles.filter (fun a => cleanupDeletesArticle now a)).length +
        (s.scanLogs.filter (fun l => cleanupDeletesLog now l)).length +
        (s.summaries.filter (fun d => cleanupDeletesSummary currentDate d)).length := by
  refine ⟨rfl, rfl, rfl, rfl, rfl, ?_, ?_, ?_⟩
  · intro a ha hrel
    show a ∈ s.articles.filter (fun a => !cleanupDeletesArticle now a)
    rw [List.mem_filter]
    refine ⟨ha, ?_⟩
    simp [cleanupDeletesArticle, hrel]
  · intro a ha hnot
    by_contra hcon
    apply hnot
    show a ∈ s.articles.filter (fun a => !cleanupDeletesArticle now a)
    rw [List.mem_filter]
    refine ⟨ha, ?_⟩
    simp only [Bool.not_eq_true', ← Bool.not_eq_true]
    intro hdel
    apply hcon
    simpa [cleanupDeletesArticle] using hdel
  · show (runCleanup now currentDate s).2 = _
    unfold runCleanup
    have h1 := length_filter_not_add (fun a => cleanupDeletesArticle now a) s.articles
    have h2 := length_filter_not_add (fun l => cleanupDeletesLog now l) s.scanLogs
    have h3 := length_filter_not_add (fun d => cleanupDeletesSummary currentDate d) s.summaries
    simp only []
    omega

/-- Concrete exercise of `cleanup_spec`: an `irrelevant` article and a
`relevant` article, both 100 days old — only the former is deleted. -/
theorem cleanup_spec_witness :
    (⟨ArticleStatus.relevant, 0⟩ : CleanupArticle) ∈
      (processCleanupScan (100 * dayMs) (100 * dayMs)
        ⟨[⟨ArticleStatus.irrelevant, 0⟩, ⟨ArticleStatus.relevant, 0⟩], [], []⟩).1.articles ∧
    (processCleanupScan (100 * dayMs) (100 * dayMs)
        ⟨[⟨ArticleStatus.irrelevant, 0⟩, ⟨ArticleStatus.relevant, 0⟩], [], []⟩).2.sourcesProcessed = 1 := by
  constructor
  · exact (cleanup_spec (100 * dayMs) (100 * dayMs)
      ⟨[⟨ArticleStatus.irrelevant, 0⟩, ⟨ArticleStatus.relevant, 0⟩], [], []⟩).2.2.2.2.2.1
      ⟨ArticleStatus.relevant, 0⟩ (by simp) rfl
  · rw [(cleanup_spec (100 * dayMs) (100 * dayMs)
      ⟨[⟨ArticleStatus.irrelevant, 0⟩, ⟨ArticleStatus.relevant, 0⟩], [], []⟩).2.2.2.2.2.2.2]
    simp [cleanupDeletesArticle, cleanupDeletesLog, cleanupDeletesSummary, dayMs, List.filter]
    norm_num

/-! ## Lemmas: multi-topic relevance analysis -/

theorem analyzeTopics_unfold (lede : Str) (topics : List TopicInfo)
    (raw : List RawTopicResult) (hlede : 50 ≤ lede.length) (hne : topics.length ≠ 0) :
    analyzeArticleForTopics lede topics (Except.ok raw) =
      topics.map (fun t =>
        match lastLookup (raw.map normalizeRawResult) t.id with
        | some r => r
        | none => missingResult t) := by
  unfold analyzeArticleForTopics
  rw [if_neg hne, if_neg ?_]
  intro h
  rcases h with h | h
  · rw [List.isEmpty_iff] at h
    rw [h] at hlede
    simp at hlede
  · omega

theorem normalizeRaw_topicId (r : RawTopicResult) :
    (normalizeRawResult r).topicId = r.topicId := rfl

/-- C8: when the multi-topic call returns a (possibly partially malformed)
response, exactly one result is produced per requested topic, each carrying
that topic's identifier; a topic with no response entry gets score 0 and the
placeholder reasoning `'Résultat manquant'`; and a topic whose unique
response entry is well-formed (score present in [0,1], reasoning and angle
present) keeps its genuine score, reasoning and angle unmodified.  A
malformed entry never fails the whole call: the mapping is total. -/
theorem analyzeTopics_spec (lede : Str) (topics : List TopicInfo)
    (raw : List RawTopicResult) (hlede : 50 ≤ lede.length) (hne : topics.length ≠ 0) :
    (analyzeArticleForTopics lede topics (Except.ok raw)).length = topics.length ∧
    (∀ (i : Nat) (t : TopicInfo) (res : TopicRelevanceResult), topics[i]? = some t →
      (analyzeArticleForTopics lede topics (Except.ok raw))[i]? = some res →
      res.topicId = t.id) ∧
    (∀ (i : Nat) (t : TopicInfo), topics[i]? = some t → (∀ r ∈ raw, ¬ r.topicId = t.id) →
      (analyzeArticleForTopics lede topics (Except.ok raw))[i]? =
        some (missingResult t)) ∧
    (∀ (i : Nat) (t : TopicInfo) (r : RawTopicResult) (sc : ℚ) (rs an : Str),
      topics[i]? = some t → r ∈ raw → r.topicId = t.id →
      (∀ r2 ∈ raw, r2.topicId = t.id → r2 = r) →
      r.relevanceScore = some sc → 0 ≤ sc → sc ≤ 1 →
      r.reasoning = some rs → r.potentialAngle = some an →
      (analyzeArticleForTopics lede topics (Except.ok raw))[i]? =
        some ⟨t.id, r.topicName, sc, rs, an⟩) := by
  rw [analyzeTopics_unfold lede topics raw hlede hne]
  refine ⟨List.length_map _ _, ?_, ?_, ?_⟩
  · intro i t res ht hres
    rw [List.getElem?_map, ht] at hres
    simp only [Option.map_some'] at hres
    cases hlook : lastLookup (raw.map normalizeRawResult) t.id with
    | some r =>
      rw [hlook] at hres
      have hp := List.find?_some hlook
      simp only [decide_eq_true_eq] at hp
      simp only [Option.some.injEq] at hres
      rw [← hres]
      exact hp
    | none =>
      rw [hlook] at hres
      simp only [Option.some.injEq] at hres
      rw [← hres]
      rfl
  · intro i t ht hmiss
    rw [List.getElem?_map, ht]
    have hlook : lastLookup (raw.map normalizeRawResult) t.id = none := by
      apply List.find?_eq_none.mpr
      intro x hx
      rw [List.mem_reverse, List.mem_map] at hx
      obtain ⟨r, hr, hxr⟩ := hx
      simp only [decide_eq_true_eq]
      rw [← hxr, normalizeRaw_topicId]
      exact hmiss r hr
    simp only [Option.map_some']
    rw [hlook]
  · intro i t r sc rs an ht hr hid huniq hsc hsc0 hsc1 hrs han
    rw [List.getElem?_map, ht]
    have hmem : normalizeRawResult r ∈ (raw.map normalizeRawResult).reverse := by
      rw [List.mem_reverse]
      exact List.mem_map_of_mem normalizeRawResult hr
    have hpred : (fun x => decide (x.topicId = t.id)) (normalizeRawResult r) = true := by
      simp only [decide_eq_true_eq, normalizeRaw_topicId]
      exact hid
    have hlook : lastLookup (raw.map normalizeRawResult) t.id = some (normalizeRawResult r) := by
      cases hfind : lastLookup (raw.map normalizeRawResult) t.id with
      | none =>
        exact absurd hpred (by simpa using List.find?_eq_none.mp hfind _ hmem)
      | some x =>
        have hxmem := List.mem_of_find?_eq_some hfind
        have hxpred := List.find?_some hfind
        rw [List.mem_reverse, List.mem_map] at hxmem
        obtain ⟨r2, hr2, hxr2⟩ := hxmem
        simp only [decide_eq_true_eq] at hxpred
        have : r2.topicId = t.id := by
          rw [← normalizeRaw_topicId r2, hxr2]
          exact hxpred
        rw [huniq r2 hr2 this] at hxr2
        rw [hxr2]
    simp only [Option.map_some']
    rw [hlook]
    have : normalizeRawResult r = ⟨t.id, r.topicName, sc, rs, an⟩ := by
      unfold normalizeRawResult clamp01
      rw [hsc, hrs, han, hid]
      simp only [Option.getD_some]
      rw [min_eq_right hsc1, max_eq_right hsc0]
    rw [this]

/-- Concrete exercise of `analyzeTopics_spec` on the specification's
scenario: topics T1, T2, a valid response entry for T1 only — T1's genuine
result is preserved, T2 gets score 0 with the placeholder reasoning. -/
theorem analyzeTopics_spec_witness :
    (analyzeArticleForTopics (List.replicate 50 'a')
        [⟨str "T1", str "Topic 1"⟩, ⟨str "T2", str "Topic 2"⟩]
        (Except.ok [⟨str "T1", str "Topic 1", some (1 / 2), some (str "good"),
          some (str "angle")⟩]))[0]? =
      some ⟨str "T1", str "Topic 1", 1 / 2, str "good", str "angle"⟩ ∧
    (analyzeArticleForTopics (List.replicate 50 'a')
        [⟨str "T1", str "Topic 1"⟩, ⟨str "T2", str "Topic 2"⟩]
        (Except.ok [⟨str "T1", str "Topic 1", some (1 / 2), some (str "good"),
          some (str "angle")⟩]))[1]? =
      some (missingResult ⟨str "T2", str "Topic 2"⟩) := by
  constructor
  · exact (analyzeTopics_spec (List.replicate 50 'a')
      [⟨str "T1", str "Topic 1"⟩, ⟨str "T2", str "Topic 2"⟩]
      [⟨str "T1", str "Topic 1", some (1 / 2), some (str "good"), some (str "angle")⟩]
      (by simp) (by simp)).2.2.2 0 ⟨str "T1", str "Topic 1"⟩
      ⟨str "T1", str "Topic 1", some (1 / 2), some (str "good"), some (str "angle")⟩
      (1 / 2) (str "good") (str "angle") rfl (by simp) rfl
      (by intro r2 h2 _; simpa using h2) rfl (by norm_num) (by norm_num) rfl rfl
  · exact (analyzeTopics_spec (List.replicate 50 'a')
      [⟨str "T1", str "Topic 1"⟩, ⟨str "T2", str "Topic 2"⟩]
      [⟨str "T1", str "Topic 1", some (1 / 2), some (str "good"), some (str "angle")⟩]
      (by simp) (by simp)).2.2.1 1 ⟨str "T2", str "Topic 2"⟩ rfl
      (by intro r hr; simp at hr; rw [hr]; decide)

/-! ## Lemmas: the worker insert loop -/

theorem insertLoop_char {σ : Type} (ins : σ → NormalizedArticle → σ × InsertOutcome)
    (topics : List TopicKw) (sourceName : Str) :
    ∀ (arts : List NormalizedArticle) (s : σ) (acc : LoopResult),
      insertLoop ins topics sourceName arts s acc =
        (runInserts ins arts s,
          ⟨acc.insertedIds ++ (loopTrace ins arts s).filterMap createdIdOf,
            acc.jobs ++ (loopTrace ins arts s).filterMap (jobOf topics sourceName),
            acc.queued + ((loopTrace ins arts s).filterMap (jobOf topics sourceName)).length,
            acc.errors ++ (loopTrace ins arts s).filterMap errOf⟩) := by
  intro arts
  induction arts with
  | nil =>
    intro s acc
    simp [insertLoop, runInserts, loopTrace]
  | cons a rest ih =>
    intro s acc
    simp only [loopTrace, runInserts]
    cases hout : (ins s a).2 with
    | created id =>
      by_cases hm : (checkAgainstTopics a topics).length > 0
      · rw [show insertLoop ins topics sourceName (a :: rest) s acc =
            insertLoop ins topics sourceName rest (ins s a).1
              { acc with
                insertedIds := acc.insertedIds ++ [id]
                jobs := acc.jobs ++ [⟨id, a.title, a.lede, sourceName, a.url,
                  checkAgainstTopics a topics⟩]
                queued := acc.queued + 1 } by
          simp only [insertLoop, hout]
          rw [if_pos hm]]
        rw [ih]
        simp [List.filterMap_cons, createdIdOf, jobOf, errOf, hout, hm]
        omega
      · rw [show insertLoop ins topics sourceName (a :: rest) s acc =
            insertLoop ins topics sourceName rest (ins s a).1
              { acc with insertedIds := acc.insertedIds ++ [id] } by
          simp only [insertLoop, hout]
          rw [if_neg hm]]
        rw [ih]
        simp [List.filterMap_cons, createdIdOf, jobOf, errOf, hout, hm]
    | noRow =>
      rw [show insertLoop ins topics sourceName (a :: rest) s acc =
          insertLoop ins topics sourceName rest (ins s a).1 acc by
        simp only [insertLoop, hout]]
      rw [ih]
      simp [List.filterMap_cons, createdIdOf, jobOf, errOf, hout]
    | thrown msg =>
      by_cases hd : includesStr msg (str "duplicate key") = true
      · rw [show insertLoop ins topics sourceName (a :: rest) s acc =
            insertLoop ins topics sourceName rest (ins s a).1 acc by
          simp only [insertLoop, hout]
          rw [if_pos hd]]
        rw [ih]
        simp [List.filterMap_cons, createdIdOf, jobOf, errOf, hout, hd]
      · rw [show insertLoop ins topics sourceName (a :: rest) s acc =
            insertLoop ins topics sourceName rest (ins s a).1
              { acc with errors := acc.errors ++
                  [str "Insert error for " ++ a.url ++ str ": " ++ msg] } by
          simp only [insertLoop, hout]
          rw [if_neg hd]]
        rw [ih]
        simp [List.filterMap_cons, createdIdOf, jobOf, errOf, hout, hd]

/-! ## Lemmas: topic matcher -/

/-- C6: `checkAgainstTopics` returns exactly the identifiers of the topics
with at least one keyword matching case-insensitively as a substring of the
space-joined concatenation of title and lede; its result, viewed as a set,
is invariant under permutation of the topics list; and the fetch worker's
insert loop enqueues an analysis job for a stored article exactly when this
matched set is non-empty. -/
theorem checkAgainstTopics_spec (article : NormalizedArticle)
    (topics topics' : List TopicKw) (hperm : topics.Perm topics') :
    (∀ kws : List Str, quickRelevanceCheck article kws = true ↔
      ∃ k ∈ kws, includesStr (lowerStr (lowerStr (article.title ++ [' '] ++ article.lede)))
        (lowerStr k) = true) ∧
    (∀ id : Str, id ∈ checkAgainstTopics article topics ↔
      ∃ t ∈ topics, t.id = id ∧ quickRelevanceCheck article t.keywords = true) ∧
    (∀ id : Str, id ∈ checkAgainstTopics article topics ↔
      id ∈ checkAgainstTopics article topics') ∧
    (∀ (p : NormalizedArticle × InsertOutcome),
      (jobOf topics (str "src") p).isSome = true ↔
        (∃ id, p.2 = InsertOutcome.created id) ∧ checkAgainstTopics p.1 topics ≠ []) ∧
    (∀ {σ : Type} (ins : σ → NormalizedArticle → σ × InsertOutcome) (sourceName : Str)
      (arts : List NormalizedArticle) (s0 : σ),
      (insertLoop ins topics sourceName arts s0 ⟨[], [], 0, []⟩).2.jobs =
        (loopTrace ins arts s0).filterMap (jobOf topics sourceName)) := by
  have hquick : ∀ kws : List Str, quickRelevanceCheck article kws = true ↔
      ∃ k ∈ kws, includesStr (lowerStr (lowerStr (article.title ++ [' '] ++ article.lede)))
        (lowerStr k) = true := by
    intro kws
    unfold quickRelevanceCheck
    rw [List.any_eq_true]
  have hmem : ∀ (ts : List TopicKw) (id : Str), id ∈ checkAgainstTopics article ts ↔
      ∃ t ∈ ts, t.id = id ∧ quickRelevanceCheck article t.keywords = true := by
    intro ts id
    unfold checkAgainstTopics
    rw [List.mem_map]
    constructor
    · rintro ⟨t, ht, hid⟩
      rw [List.mem_filter] at ht
      exact ⟨t, ht.1, hid, ht.2⟩
    · rintro ⟨t, ht, hid, hq⟩
      exact ⟨t, List.mem_filter.mpr ⟨ht, hq⟩, hid⟩
  refine ⟨hquick, hmem topics, ?_, ?_, ?_⟩
  · intro id
    rw [hmem topics, hmem topics']
    constructor
    · rintro ⟨t, ht, h⟩
      exact ⟨t, hperm.mem_iff.mp ht, h⟩
    · rintro ⟨t, ht, h⟩
      exact ⟨t, hperm.mem_iff.mpr ht, h⟩
  · rintro ⟨a, out⟩
    cases out with
    | created id =>
      dsimp only [jobOf]
      by_cases hm : (checkAgainstTopics a topics).length > 0
      · simp only [hm, if_pos]
        simp only [Option.isSome_some, true_iff]
        refine ⟨⟨id, rfl⟩, ?_⟩
        intro hnil
        rw [hnil] at hm
        simp at hm
      · rw [if_neg hm]
        constructor
        · intro h
          simp at h
        · rintro ⟨-, hne⟩
          exact absurd (List.length_pos.mpr hne) hm
    | noRow => simp [jobOf]
    | thrown msg => simp [jobOf]
  · intro σ ins sourceName arts s0
    rw [insertLoop_char ins topics sourceName arts s0 ⟨[], [], 0, []⟩]
    simp

/-- Concrete exercise of `checkAgainstTopics_spec`: a matching and a
non-matching topic in both orders give the same matched-id set membership. -/
theorem checkAgainstTopics_spec_witness :
    str "a" ∈ checkAgainstTopics
        ⟨str "s", str "e", str "u", str "h", str "Hello", str "World and more text",
          none, none, none⟩
        [⟨str "a", [str "world"]⟩, ⟨str "b", [str "zzz"]⟩] ↔
      str "a" ∈ checkAgainstTopics
        ⟨str "s", str "e", str "u", str "h", str "Hello", str "World and more text",
          none, none, none⟩
        [⟨str "b", [str "zzz"]⟩, ⟨str "a", [str "world"]⟩] :=
  (checkAgainstTopics_spec
    ⟨str "s", str "e", str "u", str "h", str "Hello", str "World and more text",
      none, none, none⟩
    [⟨str "a", [str "world"]⟩, ⟨str "b", [str "zzz"]⟩]
    [⟨str "b", [str "zzz"]⟩, ⟨str "a", [str "world"]⟩]
    (List.Perm.swap _ _ _)).2.2.1 (str "a")

/-! ## Lemmas: deduplicator -/

theorem foldl_dedupStep1 (cache : Cache) :
    ∀ (arts : List NormalizedArticle) (acc : Phase1Acc),
      arts.foldl (dedupStep1 cache) acc =
        ⟨acc.newArticles ++ arts.filter (fun a => decide (cache a.urlHash = some CacheVal.fresh)),
          acc.duplicates +
            (arts.filter (fun a => decide (cache a.urlHash = some CacheVal.exist))).length,
          acc.cacheHits +
            (arts.filter (fun a => decide (cache a.urlHash = some CacheVal.exist))).length +
            (arts.filter (fun a => decide (cache a.urlHash = some CacheVal.fresh))).length,
          acc.needsDbCheck ++ arts.filter (fun a => decide (cache a.urlHash = none))⟩ := by
  intro arts
  induction arts with
  | nil => intro acc; simp [List.filter]
  | cons a rest ih =>
    intro acc
    rw [List.foldl_cons, ih]
    cases h : cache a.urlHash with
    | none => simp [dedupStep1, h, List.filter]
    | some v =>
      cases v with
      | exist =>
        simp [dedupStep1, h, List.filter]
        omega
      | fresh =>
        simp [dedupStep1, h, List.filter]
        omega

theorem foldl_dedupStep2 (dbHas : Str → Bool) :
    ∀ (arts : List NormalizedArticle) (acc : List NormalizedArticle × Nat × Cache),
      (arts.foldl (dedupStep2 dbHas) acc).1 =
          acc.1 ++ arts.filter (fun a => !dbHas a.urlHash) ∧
        (arts.foldl (dedupStep2 dbHas) acc).2.1 =
          acc.2.1 + (arts.filter (fun a => dbHas a.urlHash)).length := by
  intro arts
  induction arts with
  | nil => intro acc; simp [List.filter]
  | cons a rest ih =>
    intro acc
    rw [List.foldl_cons]
    by_cases h : dbHas a.urlHash = true
    · rw [show dedupStep2 dbHas acc a =
          (acc.1, acc.2.1 + 1, setCache acc.2.2 a.urlHash CacheVal.exist) by
        simp [dedupStep2, h]]
      rcases ih (acc.1, acc.2.1 + 1, setCache acc.2.2 a.urlHash CacheVal.exist) with ⟨h1, h2⟩
      constructor
      · rw [h1]
        simp [List.filter, h]
      · rw [h2]
        simp [List.filter, h]
        omega
    · rw [show dedupStep2 dbHas acc a =
          (acc.1 ++ [a], acc.2.1, setCache acc.2.2 a.urlHash CacheVal.fresh) by
        simp [dedupStep2, h]]
      rcases ih (acc.1 ++ [a], acc.2.1, setCache acc.2.2 a.urlHash CacheVal.fresh) with ⟨h1, h2⟩
      constructor
      · rw [h1]
        simp [List.filter, h]
      · rw [h2]
        simp [List.filter, h]

theorem cache_partition (cache : Cache) :
    ∀ arts : List NormalizedArticle,
      (arts.filter (fun a => decide (cache a.urlHash = some CacheVal.exist))).length +
        (arts.filter (fun a => decide (cache a.urlHash = some CacheVal.fresh))).length +
        (arts.filter (fun a => decide (cache a.urlHash = none))).length = arts.length := by
  intro arts
  induction arts with
  | nil => simp
  | cons a rest ih =>
    cases h : cache a.urlHash with
    | none =>
      simp [List.filter, h]
      omega
    | some v =>
      cases v with
      | exist =>
        simp [List.filter, h]
        omega
      | fresh =>
        simp [List.filter, h]
        omega

theorem filterDuplicates_newArticles (cache : Cache) (dbHas : Str → Bool)
    (articles : List NormalizedArticle) :
    (filterDuplicates cache dbHas articles).1.newArticles =
      articles.filter (fun a => decide (cache a.urlHash = some CacheVal.fresh)) ++
        (articles.filter (fun a => decide (cache a.urlHash = none))).filter
          (fun a => !dbHas a.urlHash) := by
  unfold filterDuplicates
  rw [foldl_dedupStep1 cache articles ⟨[], 0, 0, []⟩]
  dsimp only
  rw [(foldl_dedupStep2 dbHas _ _).1]
  simp

/-- C10 counterexample: with article `a` a cache miss absent from the store
and article `b` cache-marked `new`, the input `[a, b]` produces
`newArticles = [b, a]`, which is not an order-preserving subsequence of the
input. -/
theorem filterDuplicates_claim_counterexample :
    (filterDuplicates (fun h => if h = str "h2" then some CacheVal.fresh else none)
        (fun _ => false)
        [⟨str "s", str "e1", str "u1", str "h1", str "tA", str "lA", none, none, none⟩,
          ⟨str "s", str "e2", str "u2", str "h2", str "tB", str "lB", none, none, none⟩]).1.newArticles =
      [⟨str "s", str "e2", str "u2", str "h2", str "tB", str "lB", none, none, none⟩,
        ⟨str "s", str "e1", str "u1", str "h1", str "tA", str "lA", none, none, none⟩] ∧
    ¬ List.Sublist
      [(⟨str "s", str "e2", str "u2", str "h2", str "tB", str "lB", none, none, none⟩ :
          NormalizedArticle),
        ⟨str "s", str "e1", str "u1", str "h1", str "tA", str "lA", none, none, none⟩]
      [⟨str "s", str "e1", str "u1", str "h1", str "tA", str "lA", none, none, none⟩,
        ⟨str "s", str "e2", str "u2", str "h2", str "tB", str "lB", none, none, none⟩] := by
  decide

/-- C10 (amended): `filterDuplicates` partitions its input — each article is
classified exactly once, so `newArticles.length + duplicates` and
`cacheHits + dbChecks` both equal the input length — and `newArticles` is the
concatenation of two order-preserving subsequences of the input: the
cache-confirmed new articles in input order, then the store-confirmed new
articles in input order (the concatenation itself need not be a subsequence
of the input). -/
theorem filterDuplicates_partition (cache : Cache) (dbHas : Str → Bool)
    (articles : List NormalizedArticle) :
    (filterDuplicates cache dbHas articles).1.newArticles.length +
        (filterDuplicates cache dbHas articles).1.duplicates = articles.length ∧
    (filterDuplicates cache dbHas articles).1.cacheHits +
        (filterDuplicates cache dbHas articles).1.dbChecks = articles.length ∧
    (filterDuplicates cache dbHas articles).1.newArticles =
      articles.filter (fun a => decide (cache a.urlHash = some CacheVal.fresh)) ++
        (articles.filter (fun a => decide (cache a.urlHash = none))).filter
          (fun a => !dbHas a.urlHash) ∧
    List.Sublist
      (articles.filter (fun a => decide (cache a.urlHash = some CacheVal.fresh))) articles ∧
    List.Sublist
      ((articles.filter (fun a => decide (cache a.urlHash = none))).filter
        (fun a => !dbHas a.urlHash)) articles := by
  have hp1 := foldl_dedupStep1 cache articles ⟨[], 0, 0, []⟩
  have hpart := cache_partition cache articles
  have hsplit := length_filter_not_add (fun a => dbHas a.urlHash)
    (articles.filter (fun a => decide (cache a.urlHash = none)))
  unfold filterDuplicates
  rw [hp1]
  dsimp only
  have hp2 := foldl_dedupStep2 dbHas
    (articles.filter (fun a => decide (cache a.urlHash = none)))
    ([], (articles.filter (fun a => decide (cache a.urlHash = some CacheVal.exist))).length,
      cache)
  simp only [Nat.zero_add, List.nil_append] at hp1 hp2 ⊢
  rcases hp2 with ⟨h21, h22⟩
  rw [h21, h22]
  refine ⟨?_, ?_, rfl, ?_, ?_⟩
  · rw [List.length_append]
    omega
  · omega
  · exact List.filter_sublist articles
  · exact List.Sublist.trans (List.filter_sublist _) (List.filter_sublist articles)

/-- Concrete exercise of `filterDuplicates_partition` on the counterexample
input: both partition counts equal the input length 2. -/
theorem filterDuplicates_partition_witness :
    (filterDuplicates (fun h => if h = str "h2" then some CacheVal.fresh else none)
        (fun _ => false)
        [⟨str "s", str "e1", str "u1", str "h1", str "tA", str "lA", none, none, none⟩,
          ⟨str "s", str "e2", str "u2", str "h2", str "tB", str "lB", none, none, none⟩]).1.newArticles.length +
      (filterDuplicates (fun h => if h = str "h2" then some CacheVal.fresh else none)
        (fun _ => false)
        [⟨str "s", str "e1", str "u1", str "h1", str "tA", str "lA", none, none, none⟩,
          ⟨str "s", str "e2", str "u2", str "h2", str "tB", str "lB", none, none, none⟩]).1.duplicates = 2 :=
  (filterDuplicates_partition (fun h => if h = str "h2" then some CacheVal.fresh else none)
    (fun _ => false)
    [⟨str "s", str "e1", str "u1", str "h1", str "tA", str "lA", none, none, none⟩,
      ⟨str "s", str "e2", str "u2", str "h2", str "tB", str "lB", none, none, none⟩]).1

/-! ## Lemmas: article repository -/

theorem hashCount_pos_iff (db : ArticlesDb) (h : Str) :
    0 < hashCount db h ↔ ∃ r ∈ db.rows, r.urlHash = h := by
  unfold hashCount
  rw [List.length_pos_iff_exists_mem]
  constructor
  · rintro ⟨r, hr⟩
    rw [List.mem_filter] at hr
    exact ⟨r, hr.1, of_decide_eq_true hr.2⟩
  · rintro ⟨r, hr, hh⟩
    exact ⟨r, List.mem_filter.mpr ⟨hr, decide_eq_true hh⟩⟩

theorem hashCount_append_single (db : ArticlesDb) (row : ArticleRow) (h : Str) :
    hashCount ⟨db.rows ++ [row]⟩ h =
      hashCount db h + (if row.urlHash = h then 1 else 0) := by
  unfold hashCount
  rw [List.filter_append, List.length_append]
  congr 1
  by_cases hr : row.urlHash = h
  · simp [List.filter, hr]
  · simp [List.filter, hr]

theorem hashCount_create_append (hashUrlFn : Str → Str) (db2 : ArticlesDb)
    (input : CreateArticleInput) (h' : Str)
    (hnex : ¬ ∃ r ∈ db2.rows, r.urlHash = hashUrlFn input.url) :
    hashCount (articleCreate hashUrlFn db2 input).1 h' =
      hashCount db2 h' + (if hashUrlFn input.url = h' then 1 else 0) := by
  unfold articleCreate
  rw [if_neg hnex]
  dsimp only
  rw [hashCount_append_single]

/-- C1: a second insert for a content hash already stored is a no-op, not an
error — `ArticleRepository.create` returns no row and leaves the table
unchanged, so exactly one record per hash remains; a first insert returns the
row and establishes the single record; the per-hash uniqueness invariant is
preserved by every insert; and in the fetch worker's per-article insert loop
a thrown error whose message contains `duplicate key` is swallowed silently —
the scan error list is exactly the non-duplicate-key thrown messages. -/
theorem articleCreate_spec (hashUrlFn : Str → Str) (db : ArticlesDb)
    (input : CreateArticleInput) (hone : hashCount db (hashUrlFn input.url) = 1) :
    (articleCreate hashUrlFn db input = (db, none) ∧
      hashCount (articleCreate hashUrlFn db input).1 (hashUrlFn input.url) = 1) ∧
    (∀ db2 : ArticlesDb, hashCount db2 (hashUrlFn input.url) = 0 →
      (articleCreate hashUrlFn db2 input).2.isSome = true ∧
        hashCount (articleCreate hashUrlFn db2 input).1 (hashUrlFn input.url) = 1) ∧
    (∀ db2 : ArticlesDb, (∀ h', hashCount db2 h' ≤ 1) →
      ∀ h', hashCount (articleCreate hashUrlFn db2 input).1 h' ≤ 1) ∧
    (∀ (a : NormalizedArticle) (msg : Str),
      includesStr msg (str "duplicate key") = true →
      errOf (a, InsertOutcome.thrown msg) = none) ∧
    (∀ {σ : Type} (ins : σ → NormalizedArticle → σ × InsertOutcome)
      (topics : List TopicKw) (sourceName : Str) (arts : List NormalizedArticle) (s0 : σ),
      (insertLoop ins topics sourceName arts s0 ⟨[], [], 0, []⟩).2.errors =
        (loopTrace ins arts s0).filterMap errOf) := by
  refine ⟨?_, ?_, ?_, ?_, ?_⟩
  · have hex : ∃ r ∈ db.rows, r.urlHash = hashUrlFn input.url :=
      (hashCount_pos_iff db (hashUrlFn input.url)).mp (by omega)
    have hcr : articleCreate hashUrlFn db input = (db, none) := by
      unfold articleCreate
      rw [if_pos hex]
    exact ⟨hcr, by rw [hcr]; exact hone⟩
  · intro db2 hz
    have hnex : ¬ ∃ r ∈ db2.rows, r.urlHash = hashUrlFn input.url := by
      intro hex
      have := (hashCount_pos_iff db2 (hashUrlFn input.url)).mpr hex
      omega
    constructor
    · unfold articleCreate
      rw [if_neg hnex]
      rfl
    · rw [hashCount_create_append hashUrlFn db2 input _ hnex, if_pos rfl]
      omega
  · intro db2 hinv h'
    by_cases hex : ∃ r ∈ db2.rows, r.urlHash = hashUrlFn input.url
    · unfold articleCreate
      rw [if_pos hex]
      exact hinv h'
    · rw [hashCount_create_append hashUrlFn db2 input h' hex]
      by_cases hh : hashUrlFn input.url = h'
      · rw [if_pos hh]
        have hz : hashCount db2 h' = 0 := by
          by_contra hc
          apply hex
          obtain ⟨r, hr, hrh⟩ := (hashCount_pos_iff db2 h').mp (by omega)
          exact ⟨r, hr, by rw [hrh, hh]⟩
        omega
      · rw [if_neg hh]
        have := hinv h'
        omega
  · intro a msg hdup
    unfold errOf
    simp only [hdup, if_true]
  · intro σ ins topics sourceName arts s0
    rw [insertLoop_char ins topics sourceName arts s0 ⟨[], [], 0, []⟩]
    simp

/-- Concrete exercise of `articleCreate_spec`: inserting a URL whose hash is
already stored returns no row and leaves the single stored record in place. -/
theorem articleCreate_spec_witness :
    articleCreate (fun s => s)
        ⟨[⟨0, str "s", none, str "u", str "u", str "t", none, none, none, none,
          ArticleStatus.pending⟩]⟩
        ⟨str "s", none, str "u", str "t", none, none, none, none⟩ =
      (⟨[⟨0, str "s", none, str "u", str "u", str "t", none, none, none, none,
        ArticleStatus.pending⟩]⟩, none) :=
  ((articleCreate_spec (fun s => s)
      ⟨[⟨0, str "s", none, str "u", str "u", str "t", none, none, none, none,
        ArticleStatus.pending⟩]⟩
      ⟨str "s", none, str "u", str "t", none, none, none, none⟩ (by decide)).1).1

/-! ## Lemmas: terminal cache mark -/

theorem markBatchAsStored_mem (hashUrlFn : Str → Str) :
    ∀ (urls : List Str) (cache : Cache) (h : Str),
      markBatchAsStored hashUrlFn cache urls h =
        if h ∈ urls.map hashUrlFn then some CacheVal.exist else cache h := by
  intro urls
  induction urls with
  | nil => intro cache h; simp [markBatchAsStored]
  | cons u rest ih =>
    intro cache h
    show markBatchAsStored hashUrlFn (setCache cache (hashUrlFn u) CacheVal.exist) rest h = _
    rw [ih]
    by_cases hr : h ∈ rest.map hashUrlFn
    · rw [if_pos hr, if_pos (by simp [hr])]
    · rw [if_neg hr]
      by_cases hu : h = hashUrlFn u
      · rw [if_pos (by simp [hu])]
        simp [setCache, hu]
      · rw [if_neg (by simp [hu, hr])]
        simp [setCache, hu]

theorem cacheExist_not_new (cache : Cache) (dbHas : Str → Bool)
    (batch : List NormalizedArticle) (b : NormalizedArticle)
    (hb : cache b.urlHash = some CacheVal.exist) :
    b ∉ (filterDuplicates cache dbHas batch).1.newArticles := by
  intro hmem
  rw [filterDuplicates_newArticles cache dbHas batch] at hmem
  rw [List.mem_append] at hmem
  rcases hmem with hmem | hmem
  · rw [List.mem_filter] at hmem
    rw [hb] at hmem
    simp at hmem
  · rw [List.mem_filter, List.mem_filter] at hmem
    rw [hb] at hmem
    simp at hmem

/-- C2 counterexample: an article whose insert throws a non-duplicate error
(so nothing is stored — `insertedIds` is empty) still has its hash marked
`'exists'` by `markBatchAsStored`, which `processRssScan` runs over the whole
deduplicated-new batch; the terminal mark is therefore not written only after
a confirmed insert. -/
theorem dedupTerminalMark_claim_counterexample :
    ((workerInsertAndMark (fun s => s)
        (fun _ _ => ((), InsertOutcome.thrown (str "connection reset")))
        [] (str "src") (fun _ => none)
        [⟨str "s", str "e1", str "u1", str "u1", str "tA", str "lA", none, none, none⟩]
        ()).2.1.insertedIds = [] ∧
      (workerInsertAndMark (fun s => s)
        (fun _ _ => ((), InsertOutcome.thrown (str "connection reset")))
        [] (str "src") (fun _ => none)
        [⟨str "s", str "e1", str "u1", str "u1", str "tA", str "lA", none, none, none⟩]
        ()).2.2 (str "u1") = some CacheVal.exist) := by
  decide

/-- C2 (amended): after the insert loop, `markBatchAsStored` marks the hash
of every deduplicated-new article `'exists'` — including articles whose
insert failed — not only confirmed inserts; consequently every article
durably stored through this path (a subset of that batch) is marked, and a
later `filterDuplicates` probe against the updated cache never classifies its
hash as new. -/
theorem dedupTerminalMark_amended {σ : Type} (hashUrlFn : Str → Str)
    (ins : σ → NormalizedArticle → σ × InsertOutcome) (topics : List TopicKw)
    (sourceName : Str) (cache : Cache) (arts : List NormalizedArticle) (s0 : σ) :
    (∀ a ∈ arts,
      (workerInsertAndMark hashUrlFn ins topics sourceName cache arts s0).2.2
        (hashUrlFn a.url) = some CacheVal.exist) ∧
    (∀ a ∈ arts, ∀ (dbHas : Str → Bool) (batch : List NormalizedArticle)
      (b : NormalizedArticle), b.urlHash = hashUrlFn a.url →
      b ∉ (filterDuplicates
        ((workerInsertAndMark hashUrlFn ins topics sourceName cache arts s0).2.2)
        dbHas batch).1.newArticles) := by
  have hmark : ∀ a ∈ arts,
      (workerInsertAndMark hashUrlFn ins topics sourceName cache arts s0).2.2
        (hashUrlFn a.url) = some CacheVal.exist := by
    intro a ha
    show markBatchAsStored hashUrlFn cache (arts.map (fun a => a.url)) (hashUrlFn a.url) = _
    rw [markBatchAsStored_mem]
    rw [if_pos ?_]
    rw [List.map_map]
    exact List.mem_map_of_mem _ ha
  refine ⟨hmark, ?_⟩
  intro a ha dbHas batch b hb
  exact cacheExist_not_new _ dbHas batch b (by rw [hb]; exact hmark a ha)

/-- Concrete exercise of `dedupTerminalMark_amended`: the failed-insert
article's hash reads back `'exists'`, and a re-submitted article with that
hash is not classified new. -/
theorem dedupTerminalMark_amended_witness :
    (workerInsertAndMark (fun s => s)
        (fun _ _ => ((), InsertOutcome.thrown (str "connection reset")))
        [] (str "src") (fun _ => none)
        [⟨str "s", str "e1", str "u1", str "u1", str "tA", str "lA", none, none, none⟩]
        ()).2.2 ((fun s => s) (str "u1")) = some CacheVal.exist :=
  (dedupTerminalMark_amended (fun s => s)
      (fun _ _ => ((), InsertOutcome.thrown (str "connection reset")))
      [] (str "src") (fun _ => none)
      [⟨str "s", str "e1", str "u1", str "u1", str "tA", str "lA", none, none, none⟩]
      ()).1
    ⟨str "s", str "e1", str "u1", str "u1", str "tA", str "lA", none, none, none⟩
    (by simp)

/-! ## Lemmas: normalization -/

theorem probeLede_bounds (c : Option Str) (l : Str) (h : probeLede c = some l) :
    30 ≤ l.length ∧ l.length ≤ 500 := by
  unfold probeLede at h
  cases c with
  | none => simp at h
  | some s =>
    dsimp only at h
    by_cases h1 : s.isEmpty = true
    · rw [if_pos h1] at h
      simp at h
    · rw [if_neg h1] at h
      by_cases h2 : (trimStr s).length = 0
      · rw [if_pos h2] at h
        simp at h
      · rw [if_neg h2] at h
        by_cases h3 : 30 ≤ (stripHtml s).length
        · rw [if_pos h3] at h
          simp only [Option.some.injEq] at h
          subst h
          rw [List.length_take]
          omega
        · rw [if_neg h3] at h
          simp at h

theorem extractLede_bounds (item : RSSItem) (l : Str) (h : extractLede item = some l) :
    30 ≤ l.length ∧ l.length ≤ 500 := by
  unfold extractLede at h
  cases h1 : probeLede item.contentSnippet with
  | some x =>
    rw [h1] at h
    simp only [Option.some.injEq] at h
    exact h ▸ probeLede_bounds _ x h1
  | none =>
    rw [h1] at h
    dsimp only at h
    cases h2 : probeLede item.summary with
    | some x =>
      rw [h2] at h
      simp only [Option.some.injEq] at h
      exact h ▸ probeLede_bounds _ x h2
    | none =>
      rw [h2] at h
      dsimp only at h
      cases h3 : probeLede item.description with
      | some x =>
        rw [h3] at h
        simp only [Option.some.injEq] at h
        exact h ▸ probeLede_bounds _ x h3
      | none =>
        rw [h3] at h
        dsimp only at h
        exact probeLede_bounds _ l h

theorem foldl_normStep (parseUrlFn : Str → Option Str) (parseDateFn : Str → Option ℚ)
    (hashUrlFn : Str → Str) (now : ℚ) (sourceId : Str) :
    ∀ (items : List RSSItem) (acc : NormalizationResult),
      (items.foldl (normStep parseUrlFn parseDateFn hashUrlFn now sourceId) acc).articles =
        acc.articles ++ items.filterMap (fun it =>
          match normalizeItem parseUrlFn parseDateFn hashUrlFn now it sourceId with
          | .accepted a => some a
          | .rejected _ => none) := by
  intro items
  induction items with
  | nil => intro acc; simp
  | cons it rest ih =>
    intro acc
    rw [List.foldl_cons]
    cases hres : normalizeItem parseUrlFn parseDateFn hashUrlFn now it sourceId with
    | accepted a =>
      rw [show normStep parseUrlFn parseDateFn hashUrlFn now sourceId acc it =
          { acc with articles := acc.articles ++ [a] } by simp [normStep, hres]]
      rw [ih]
      simp [List.filterMap_cons, hres]
    | rejected r =>
      rw [show normStep parseUrlFn parseDateFn hashUrlFn now sourceId acc it =
          { acc with
            skipped := acc.skipped + 1
            reasons := fun k => if k = r then acc.reasons k + 1 else acc.reasons k } by
        simp [normStep, hres]]
      rw [ih]
      simp [List.filterMap_cons, hres]

/-- C3 counterexample: the item with title `"<b>Hi</b>"` (2 visible
characters after markup stripping, but 9 raw characters after trimming) and
otherwise valid fields is accepted by `normalizeItem`, not rejected under
rule (b): the title rule counts raw trimmed characters, without stripping
markup. -/
theorem normalizeTitle_claim_counterexample :
    isAcceptedOutcome (normalizeItem (fun s => some s) (fun _ => none) (fun s => s) 0
      ⟨some (str "<b>Hi</b>"), some (str "http://x.co/a"), none, none, none, none, none,
        some (str "A plain description lede of sufficient length here"), none, none, none⟩
      (str "s1")) = true ∧
    (stripHtml (str "<b>Hi</b>")).length < 5 := by
  decide

/-- C3 (amended): `normalizeItem` applies the rejection rules in order —
(a) missing (or empty) link; (b) title missing or with trimmed raw length
under 5 characters (markup is not stripped before counting); (c) URL not
passing the scheme check and the host URL parser; (d) no probed lede field
(`contentSnippet`, `summary`, `description`, `content`, in that order,
markup-stripped, truncated to 500 characters) reaching 30 characters;
(e) parsed publish date (future dates capped to now) older than the 7-day
horizon — reporting the first failing rule as the rejection reason; an item
passing all rules is accepted with the stated fields, every extracted lede
has between 30 and 500 characters, and `normalizeItems` forwards exactly the
accepted articles, so rejected items never reach the deduplicator. -/
theorem normalizeItem_spec (parseUrlFn : Str → Option Str) (parseDateFn : Str → Option ℚ)
    (hashUrlFn : Str → Str) (now : ℚ) (sourceId : Str) (item : RSSItem)
    (items : List RSSItem) :
    (jsTruthy item.link = false →
      normalizeItem parseUrlFn parseDateFn hashUrlFn now item sourceId =
        .rejected (str "missing_link")) ∧
    (jsTruthy item.link = true →
      (jsTruthy item.title = false ∨ (trimStr (item.title.getD [])).length < 5) →
      normalizeItem parseUrlFn parseDateFn hashUrlFn now item sourceId =
        .rejected (str "missing_or_short_title")) ∧
    (jsTruthy item.link = true → jsTruthy item.title = true →
      ¬ (trimStr (item.title.getD [])).length < 5 →
      cleanUrl parseUrlFn (item.link.getD []) = none →
      normalizeItem parseUrlFn parseDateFn hashUrlFn now item sourceId =
        .rejected (str "invalid_url")) ∧
    (∀ url : Str, jsTruthy item.link = true → jsTruthy item.title = true →
      ¬ (trimStr (item.title.getD [])).length < 5 →
      cleanUrl parseUrlFn (item.link.getD []) = some url →
      extractLede item = none →
      normalizeItem parseUrlFn parseDateFn hashUrlFn now item sourceId =
        .rejected (str "insufficient_content")) ∧
    (∀ l : Str, extractLede item = some l → 30 ≤ l.length ∧ l.length ≤ 500) ∧
    (∀ (url lede : Str), jsTruthy item.link = true → jsTruthy item.title = true →
      ¬ (trimStr (item.title.getD [])).length < 5 →
      cleanUrl parseUrlFn (item.link.getD []) = some url →
      extractLede item = some lede →
      staleCheck now (parseDate parseDateFn now (jsOrStr item.pubDate item.isoDate)) = true →
      normalizeItem parseUrlFn parseDateFn hashUrlFn now item sourceId =
        .rejected (str "too_old")) ∧
    (∀ (url lede : Str), jsTruthy item.link = true → jsTruthy item.title = true →
      ¬ (trimStr (item.title.getD [])).length < 5 →
      cleanUrl parseUrlFn (item.link.getD []) = some url →
      extractLede item = some lede →
      staleCheck now (parseDate parseDateFn now (jsOrStr item.pubDate item.isoDate)) = false →
      normalizeItem parseUrlFn parseDateFn hashUrlFn now item sourceId =
        .accepted
          { sourceId := sourceId
            externalId := if jsTruthy item.guid then item.guid.getD [] else url
            url := url
            urlHash := hashUrlFn url
            title := cleanText (item.title.getD [])
            lede := cleanText lede
            fullText :=
              if jsTruthy item.content then some (cleanText (item.content.getD [])) else none
            author :=
              if jsTruthy item.author then item.author
              else if jsTruthy item.creator then item.creator
              else none
            publishedAt := parseDate parseDateFn now (jsOrStr item.pubDate item.isoDate) }) ∧
    ((normalizeItems parseUrlFn parseDateFn hashUrlFn now items sourceId).articles =
      items.filterMap (fun it =>
        match normalizeItem parseUrlFn parseDateFn hashUrlFn now it sourceId with
        | .accepted a => some a
        | .rejected _ => none)) := by
  refine ⟨?_, ?_, ?_, ?_, extractLede_bounds item, ?_, ?_, ?_⟩
  · intro hl
    unfold normalizeItem
    rw [if_pos (by rw [hl])]
  · intro hl ht
    unfold normalizeItem
    rw [if_neg (by rw [hl]; simp), if_pos ht]
  · intro hl ht hlen hcu
    unfold normalizeItem
    rw [if_neg (by rw [hl]; simp), if_neg (by rw [ht]; simp; omega), hcu]
  · intro url hl ht hlen hcu hle
    unfold normalizeItem
    rw [if_neg (by rw [hl]; simp), if_neg (by rw [ht]; simp; omega), hcu]
    dsimp only
    rw [hle]
  · intro url lede hl ht hlen hcu hle hstale
    have hbounds := extractLede_bounds item lede hle
    unfold normalizeItem
    rw [if_neg (by rw [hl]; simp), if_neg (by rw [ht]; simp; omega), hcu]
    dsimp only
    rw [hle]
    dsimp only
    rw [if_neg (by omega), if_pos hstale]
  · intro url lede hl ht hlen hcu hle hstale
    have hbounds := extractLede_bounds item lede hle
    unfold normalizeItem
    rw [if_neg (by rw [hl]; simp), if_neg (by rw [ht]; simp; omega), hcu]
    dsimp only
    rw [hle]
    dsimp only
    rw [if_neg (by omega), if_neg (by rw [hstale]; simp)]
  · exact foldl_normStep parseUrlFn parseDateFn hashUrlFn now sourceId items ⟨[], 0, fun _ => 0⟩

/-- Concrete exercise of `normalizeItem_spec`: an item with no link is
rejected with reason `missing_link`. -/
theorem normalizeItem_spec_witness :
    normalizeItem (fun s => some s) (fun _ => none) (fun s => s) 0
        ⟨some (str "A title"), none, none, none, none, none, none, none, none, none, none⟩
        (str "s1") =
      NormOutcome.rejected (str "missing_link") :=
  (normalizeItem_spec (fun s => some s) (fun _ => none) (fun s => s) 0 (str "s1")
    ⟨some (str "A title"), none, none, none, none, none, none, none, none, none, none⟩
    []).1 rfl

end MediaScanner
